import Mathlib

/-!
Verification of the ChittyRSS feed-aggregation server against its
natural-language specification.  The definitions below are shallow
embeddings of the functions in `src/server/routes.ts` and
`src/server/storage.ts`: JavaScript strings become `List Char`,
nullable values become `Option`, promises become explicit state
passing, and the event-loop nondeterminism of the bounded-concurrency
executor becomes an explicit completion schedule.
-/

set_option maxRecDepth 20000

namespace ChittyRSS

/-! ## Character and string helpers (JS semantics) -/
/-- Case-insensitive character comparison, as used by the `i` flag of the
JavaScript regular expressions in `routes.ts`: equal outright, or equal
after folding an upper-case Basic Latin letter (the only case folding
relevant to the ASCII pattern characters these regexes contain). -/
def ciEq (a b : Char) : Bool :=
  a == b ||
  (65 ≤ a.toNat && a.toNat ≤ 90 && b.toNat == a.toNat + 32) ||
  (65 ≤ b.toNat && b.toNat ≤ 90 && a.toNat == b.toNat + 32)

/-- Whitespace as recognised by JavaScript `String.prototype.trim` and the
`\s` character class (the common members; the exotic Unicode space family
does not occur in any input considered here).  Note U+200B zero-width
space is *not* JS whitespace. -/
def isJsSpace (c : Char) : Bool :=
  c == ' ' || c == '\t' || c == '\n' || c == '\r' ||
  c == '\x0b' || c == '\x0c' || c == ' ' || c == '﻿'

/-- The zero-width space character U+200B. -/
def zwsp : Char := '​'

/-- Drop the longest leading and trailing runs satisfying `p` (in JS: the
effect of replacing an anchored `^[class]+|[class]+$` global match with
the empty string, or of `trim` for the whitespace class). -/
def trimEnds (p : Char → Bool) (l : List Char) : List Char :=
  (l.dropWhile p).rdropWhile p

/-- JavaScript `String.prototype.trim`. -/
def jsTrim (l : List Char) : List Char := trimEnds isJsSpace l

/-- Does the character belong to the class `[\s​]` of
`normalizeUrl`'s stripping regex? -/
def isWsZwsp (c : Char) : Bool := isJsSpace c || c == zwsp

/-- Literal match: does `l` start with the literal `pat` (case-sensitive)? -/
def startsLit : List Char → List Char → Bool
  | [], _ => true
  | _ :: _, [] => false
  | p :: ps, c :: cs => p == c && startsLit ps cs

/-- Case-insensitive literal match. -/
def startsLitCI : List Char → List Char → Bool
  | [], _ => true
  | _ :: _, [] => false
  | p :: ps, c :: cs => ciEq p c && startsLitCI ps cs

/-! ## URL normalizer (`normalizeUrl`, routes.ts lines 74-86) -/
/-- The test `url.match(/^https?:\/\//i)` of `normalizeUrl`: the string
starts with `http`, an optional `s`, then `://`, case-insensitively. -/
def matchesHttpScheme (l : List Char) : Bool :=
  match l with
  | c1 :: c2 :: c3 :: c4 :: rest =>
    ciEq c1 'h' && ciEq c2 't' && ciEq c3 't' && ciEq c4 'p' &&
    (match rest with
     | c5 :: rest2 => (ciEq c5 's' && startsLit "://".data rest2) || startsLit "://".data rest
     | [] => false)
  | _ => false

/-- `normalizeUrl` from routes.ts: `input.trim()`, then removal of the
anchored leading/trailing `[\s​]+` runs (the effect of the global
replace with the empty string), then prepending `https://` when no
HTTP(S) scheme is present. -/
def normalizeUrl (input : List Char) : List Char :=
  let url := jsTrim input
  let url := trimEnds isWsZwsp url
  if matchesHttpScheme url then url else "https://".data ++ url

/-! ## Summary extraction (`extractSummary`, routes.ts lines 27-38) -/
/-- Position just after the first `>` of a list, when one exists. -/
def afterGt : List Char → Option (List Char)
  | [] => none
  | c :: cs => if c == '>' then some cs else afterGt cs

/-- The global replacement `content.replace(/<[^>]*>/g, "")`: every
occurrence of a `<`, followed by non-`>` characters and a closing `>`,
is deleted; a `<` with no subsequent `>` stays (the regex cannot match
there).  The fuel argument makes the recursion structural (the list
shrinks strictly faster than the fuel, so `l.length` fuel is always
enough and the `0` case is unreachable). -/
def stripTagsFuel : Nat → List Char → List Char
  | 0, _ => []
  | _ + 1, [] => []
  | fuel + 1, c :: rest =>
    if c == '<' then
      match afterGt rest with
      | some rem => stripTagsFuel fuel rem
      | none => c :: stripTagsFuel fuel rest
    else c :: stripTagsFuel fuel rest

/-- `content.replace(/<[^>]*>/g, "")` at adequate fuel. -/
def stripTags (l : List Char) : List Char := stripTagsFuel l.length l

/-- JavaScript `text.lastIndexOf(" ", pos)`: the greatest index `i ≤ pos`
with a space at `i`, searching backwards from `pos`; `none` plays the
role of `-1`. -/
def jsLastIndexOfSpace (l : List Char) : Nat → Option Nat
  | 0 => if l.getD 0 'x' == ' ' then some 0 else none
  | i + 1 =>
    if l.getD (i + 1) 'x' == ' ' then some (i + 1) else jsLastIndexOfSpace l i

/-- `extractSummary` from routes.ts.  The argument is `None` for a JS
`undefined`; the guard `if (!content) return null` also sends the empty
string to `null`. -/
def extractSummary (content : Option (List Char)) (maxLength : Nat) :
    Option (List Char) :=
  match content with
  | none => none
  | some c =>
    if c.isEmpty then none
    else
      let text := jsTrim (stripTags c)
      if text.length ≤ maxLength then some text
      else
        match jsLastIndexOfSpace text maxLength with
        | some lastSpace =>
          if 0 < lastSpace then some (text.take lastSpace ++ "...".data)
          else some (text.take maxLength ++ "...".data)
        | none => some (text.take maxLength ++ "...".data)

/-! ## C9: the URL normalizer -/
/-- Spec reading of the scheme test: the string has a case-insensitive
`http://` or `https://` prefix. -/
def specHasHttpScheme (l : List Char) : Bool :=
  startsLitCI "http://".data l || startsLitCI "https://".data l

/-! ## C5: summary extraction -/
/-- Spec reading of "the last space at or before character `n`": the
greatest index `i ≤ n` holding a space, if any. -/
def lastSpaceAtOrBefore (text : List Char) (n : Nat) : Option Nat :=
  if (List.range (n + 1)).any (fun i => text.getD i 'x' == ' ') then
    some (Nat.findGreatest (fun i => text.getD i 'x' = ' ') n)
  else none

/-- Spec reading (amended: a space character, not arbitrary whitespace)
of summary truncation applied to the tag-stripped, trimmed text. -/
def summarySpec (text : List Char) : List Char :=
  if text.length ≤ 200 then text
  else
    match lastSpaceAtOrBefore text 200 with
    | some i => text.take i ++ "...".data
    | none => text.take 200 ++ "...".data

/-! ## Data model and storage (`storage.ts`)

Timestamps are `Nat`; record ids are `Nat`s generated from a counter
(the database generates opaque unique ids).  Nullable columns are
`Option`. -/
structure Feed where
  id : Nat
  url : List Char
  siteUrl : Option (List Char)
  title : List Char
  description : Option (List Char)
  favicon : Option (List Char)
  categoryId : Option Nat
  lastFetched : Option Nat
  errorCount : Option Nat
  isActive : Bool
deriving DecidableEq

structure Article where
  id : Nat
  feedId : Nat
  title : List Char
  url : List Char
  content : Option (List Char)
  summary : Option (List Char)
  author : Option (List Char)
  imageUrl : Option (List Char)
  publishedAt : Nat
  isRead : Bool
  isBookmarked : Bool
  guid : List Char
deriving DecidableEq

/-- Category record; the `color`/`order` columns of the schema are never
read by the code under verification, so they are omitted. -/
structure Category where
  id : Nat
  name : List Char
deriving DecidableEq

structure Store where
  feeds : List Feed
  articles : List Article
  categories : List Category
  nextId : Nat
deriving DecidableEq

/-- `getArticleByGuid` (storage.ts lines 215-221): the first Article
with the given `(feedId, guid)` pair. -/
def getArticleByGuid (s : Store) (feedId : Nat) (guid : List Char) :
    Option Article :=
  s.articles.find? (fun a => a.feedId == feedId && a.guid == guid)

/-- `createArticle` (storage.ts): insert with a fresh generated id. -/
def createArticle (s : Store) (a : Article) : Store × Article :=
  let inserted := { a with id := s.nextId }
  ({ s with articles := s.articles ++ [inserted], nextId := s.nextId + 1 },
    inserted)

/-- The partial update objects passed to `updateFeed` by routes.ts; the
call sites only ever set `lastFetched` and/or `errorCount`. -/
structure FeedPatch where
  lastFetched : Option Nat := none
  errorCount : Option Nat := none

def applyPatch (f : Feed) (p : FeedPatch) : Feed :=
  { f with
    lastFetched := match p.lastFetched with
      | some t => some t
      | none => f.lastFetched
    errorCount := match p.errorCount with
      | some n => some n
      | none => f.errorCount }

/-- `updateFeed` (storage.ts lines 143-149): set the given columns on the
row with the given id. -/
def updateFeed (s : Store) (id : Nat) (p : FeedPatch) : Store :=
  { s with feeds := s.feeds.map (fun f => if f.id == id then applyPatch f p else f) }

/-- `getFeedByUrl` (storage.ts lines 133-136). -/
def getFeedByUrl (s : Store) (url : List Char) : Option Feed :=
  s.feeds.find? (fun f => f.url == url)

/-- `createFeed` (storage.ts lines 138-141). -/
def createFeed (s : Store) (f : Feed) : Store × Feed :=
  let inserted := { f with id := s.nextId }
  ({ s with feeds := s.feeds ++ [inserted], nextId := s.nextId + 1 }, inserted)

/-- `createCategory` (storage.ts lines 86-89). -/
def createCategory (s : Store) (name : List Char) : Store × Category :=
  let inserted : Category := { id := s.nextId, name := name }
  ({ s with categories := s.categories ++ [inserted], nextId := s.nextId + 1 },
    inserted)

/-- `getCategories` (storage.ts lines 77-79); category order does not
matter to any claim, so the stored order stands in for the
`(order, name)` sort over the omitted columns. -/
def getCategories (s : Store) : List Category := s.categories

structure HealthStats where
  totalFeeds : Nat
  failingFeeds : Nat
  feedsWithErrors : List Feed
deriving DecidableEq

/-- `getFeedHealthStats` (storage.ts lines 258-267). -/
def getFeedHealthStats (s : Store) : HealthStats :=
  let allFeeds := s.feeds
  let feedsWithErrors := allFeeds.filter (fun f => 3 ≤ f.errorCount.getD 0)
  { totalFeeds := allFeeds.length
    failingFeeds := feedsWithErrors.length
    feedsWithErrors := feedsWithErrors }

/-! ## Parsed feeds (the rss-parser collaborator) and the sync engine
(`POST /api/feeds/refresh`, routes.ts lines 377-434) -/
structure ParsedItem where
  guid : Option (List Char)
  link : Option (List Char)
  title : Option (List Char)
  contentEncoded : Option (List Char)
  content : Option (List Char)
  contentSnippet : Option (List Char)
  creator : Option (List Char)
  author : Option (List Char)
  enclosureUrl : Option (List Char)
  pubDate : Option Nat
deriving DecidableEq

structure ParsedFeed where
  title : Option (List Char)
  link : Option (List Char)
  description : Option (List Char)
  items : List ParsedItem
deriving DecidableEq

/-- A parse result with no items, for concrete instantiations. -/
def emptyParsedFeed : ParsedFeed :=
  { title := none, link := none, description := none, items := [] }

/-- JS truthiness of a nullable string: `undefined`/`null` and `""` are
falsy. -/
def truthy : Option (List Char) → Option (List Char)
  | none => none
  | some s => if s.isEmpty then none else some s

/-- `a || b` on nullable strings (returns `b` unexamined when `a` is
falsy). -/
def jsOrOpt (a b : Option (List Char)) : Option (List Char) :=
  match truthy a with
  | some s => some s
  | none => b

/-- `item.guid || item.link || item.title || ""` (routes.ts line 396). -/
def deriveGuid (it : ParsedItem) : List Char :=
  match truthy it.guid with
  | some s => s
  | none =>
    match truthy it.link with
    | some s => s
    | none => (truthy it.title).getD []

/-- The Article insert built for one parsed item (routes.ts lines
401-413); the generated id is filled in by `createArticle`. -/
def articleOfItem (feedId : Nat) (now : Nat) (it : ParsedItem) : Article :=
  { id := 0
    feedId := feedId
    title := (truthy it.title).getD "Untitled".data
    url := (truthy it.link).getD []
    content := jsOrOpt it.contentEncoded (truthy it.content)
    summary := extractSummary (jsOrOpt it.contentSnippet it.content) 200
    author := jsOrOpt it.creator (truthy it.author)
    imageUrl := truthy it.enclosureUrl
    publishedAt := it.pubDate.getD now
    isRead := false
    isBookmarked := false
    guid := deriveGuid it }

/-- The item loop of the refresh handler (routes.ts lines 394-415):
sequential, in delivered order, skipping items whose derived guid
already has an Article for this feed; returns the store and the number
of Articles created. -/
def syncItems (feedId : Nat) (now : Nat) (items : List ParsedItem)
    (s : Store) : Store × Nat :=
  match items with
  | [] => (s, 0)
  | it :: rest =>
    let guid := deriveGuid it
    match getArticleByGuid s feedId guid with
    | some _ => syncItems feedId now rest s
    | none =>
      let s2 := (createArticle s (articleOfItem feedId now it)).1
      let (s3, n) := syncItems feedId now rest s2
      (s3, n + 1)

/-- One feed's sync inside the refresh handler (routes.ts lines
384-427).  `parseResult` is `none` when `parseFeed` reports failure;
on failure only `errorCount` is written (computed from the in-memory
`feed` value), on success the first 50 items are ingested and then
`lastFetched`/`errorCount` are written. -/
def syncFeedRefresh (feed : Feed) (parseResult : Option ParsedFeed)
    (now : Nat) (s : Store) : Store × Nat :=
  match parseResult with
  | none =>
    (updateFeed s feed.id { errorCount := some (feed.errorCount.getD 0 + 1) }, 0)
  | some pf =>
    let (s2, n) := syncItems feed.id now (pf.items.take 50) s
    (updateFeed s2 feed.id { lastFetched := some now, errorCount := some 0 }, n)

/-! ## C10: per-feed guid uniqueness within one sync -/
/-- No two Articles share a `(feedId, guid)` pair. -/
def UniqueGuids (arts : List Article) : Prop :=
  List.Pairwise (fun a b => ¬(a.feedId = b.feedId ∧ a.guid = b.guid)) arts

/-! ## C1/C6: the bounded concurrency executor (`mapConcurrency`,
routes.ts lines 51-71)

The single-threaded event loop is modelled by an explicit completion
schedule: at each await point (`await Promise.race(executing)` inside
the admission loop, `await Promise.all(executing)` at the end) the
schedule picks which in-flight operation settles next.  `fails t` says
whether `fn t`'s promise rejects and `res t` is its value otherwise.
A rejected promise is re-thrown by `await`, ending the run rejected at
that point — with the remaining pending items never admitted. -/
structure ExecState (T R : Type) where
  inFlight : List T
  started : List T
  results : List R
  maxInFlight : Nat

structure ExecOutcome (T R : Type) where
  rejected : Bool
  results : List R
  started : List T
  notAdmitted : List T
  maxInFlight : Nat

/-- One in-flight operation settles: the scheduled pick either rejects
(`executing`'s raced/awaited promise re-throws; nothing is spliced) or
fulfils (its result is pushed and its promise spliced out of
`executing`). -/
def completeAt {T R : Type} (fails : T → Bool) (res : T → R) (i : Nat)
    (st : ExecState T R) : Bool × ExecState T R :=
  match st.inFlight[i % st.inFlight.length]? with
  | none => (false, st)
  | some t =>
    if fails t then (true, st)
    else
      (false,
        { st with inFlight := st.inFlight.eraseIdx (i % st.inFlight.length),
                  results := st.results ++ [res t] })

def resolvedOutcome {T R : Type} (st : ExecState T R) : ExecOutcome T R :=
  { rejected := false, results := st.results, started := st.started,
    notAdmitted := [], maxInFlight := st.maxInFlight }

def rejectedOutcome {T R : Type} (st : ExecState T R) (rest : List T) :
    ExecOutcome T R :=
  { rejected := true, results := st.results, started := st.started,
    notAdmitted := rest, maxInFlight := st.maxInFlight }

/-- `await Promise.all(executing)`: completions settle one at a time in
schedule order; the first rejection re-throws.  The fuel is the number
of in-flight operations, which each successful completion decrements. -/
def runDrain {T R : Type} (fails : T → Bool) (res : T → R) (sched : Nat → Nat) :
    Nat → Nat → ExecState T R → ExecOutcome T R
  | 0, _, st => resolvedOutcome st
  | fuel + 1, k, st =>
    if st.inFlight.isEmpty then resolvedOutcome st
    else
      match completeAt fails res (sched k) st with
      | (true, st2) => rejectedOutcome st2 []
      | (false, st2) => runDrain fails res sched fuel (k + 1) st2

/-- The `for (const item of items)` admission loop of `mapConcurrency`:
each iteration starts the next item's operation, pushes its promise,
and, when `executing.length >= limit`, awaits `Promise.race(executing)`
before admitting more. -/
def runLoop {T R : Type} (fails : T → Bool) (res : T → R) (limit : Nat)
    (sched : Nat → Nat) : List T → Nat → ExecState T R → ExecOutcome T R
  | [], k, st => runDrain fails res sched st.inFlight.length k st
  | t :: rest, k, st =>
    let fl := st.inFlight ++ [t]
    let st1 : ExecState T R :=
      { st with inFlight := fl, started := st.started ++ [t],
                maxInFlight := max st.maxInFlight fl.length }
    if limit ≤ fl.length then
      match completeAt fails res (sched k) st1 with
      | (true, st2) => rejectedOutcome st2 rest
      | (false, st2) => runLoop fails res limit sched rest (k + 1) st2
    else runLoop fails res limit sched rest k st1

/-- `mapConcurrency(items, limit, fn)` under a completion schedule. -/
def mapConcurrency {T R : Type} (items : List T) (limit : Nat)
    (fails : T → Bool) (res : T → R) (sched : Nat → Nat) : ExecOutcome T R :=
  runLoop fails res limit sched items 0
    { inFlight := [], started := [], results := [], maxInFlight := 0 }

/-! ## C2: feed discovery (`discoverFeeds`, routes.ts lines 88-195)

The two link-tag regexes are embedded as abstract syntax trees over a
small backtracking engine with JavaScript semantics: greedy character
classes with backtracking, ordered alternation, greedy optional groups,
and case-insensitive comparison (the `i` flag). -/
inductive RE where
  | lit (cs : List Char)
  | cls (neg : Bool) (cs : List Char)
  | starCls (neg : Bool) (cs : List Char)
  | plusCls (neg : Bool) (cs : List Char)
  | seq (a b : RE)
  | alt (a b : RE)
  | opt (r : RE)
  | group (idx : Nat) (r : RE)

/-- Does character `c` match the (possibly negated) class `cs`,
case-insensitively? -/
def clsMatch (neg : Bool) (cs : List Char) (c : Char) : Bool :=
  if neg then !(cs.any (fun p => ciEq p c)) else cs.any (fun p => ciEq p c)

/-- Greedy Kleene star over a character class: consume as many matching
characters as possible, then give back one at a time on failure of the
continuation. -/
def starRun {α : Type} (neg : Bool) (cs : List Char) :
    List Char → (List Char → Option α) → Option α
  | [], k => k []
  | c :: rest, k =>
    if clsMatch neg cs c then
      match starRun neg cs rest k with
      | some r => some r
      | none => k (c :: rest)
    else k (c :: rest)

/-- The slice of `l` consumed before reaching suffix `l2`. -/
def capSlice (l l2 : List Char) : List Char := l.take (l.length - l2.length)

/-- Backtracking matcher in continuation-passing style; the continuation
receives the remaining input and the captures recorded so far.  The
leftmost accepting path is JavaScript's. -/
def matchRE {α : Type} : RE → List Char → List (Nat × List Char) →
    (List Char → List (Nat × List Char) → Option α) → Option α
  | .lit cs, l, caps, k =>
    if startsLitCI cs l then k (l.drop cs.length) caps else none
  | .cls neg cs, l, caps, k =>
    match l with
    | [] => none
    | c :: rest => if clsMatch neg cs c then k rest caps else none
  | .starCls neg cs, l, caps, k => starRun neg cs l (fun l2 => k l2 caps)
  | .plusCls neg cs, l, caps, k =>
    match l with
    | [] => none
    | c :: rest =>
      if clsMatch neg cs c then starRun neg cs rest (fun l2 => k l2 caps)
      else none
  | .seq a b, l, caps, k =>
    matchRE a l caps (fun l2 c2 => matchRE b l2 c2 k)
  | .alt a b, l, caps, k =>
    match matchRE a l caps k with
    | some r => some r
    | none => matchRE b l caps k
  | .opt r, l, caps, k =>
    match matchRE r l caps k with
    | some r2 => some r2
    | none => k l caps
  | .group i r, l, caps, k =>
    matchRE r l caps (fun l2 c2 => k l2 ((i, capSlice l l2) :: c2))

/-- The `while ((match = pat.exec(html)) !== null)` loop of a global
regex: find the leftmost match from the current position, record its
captures, continue after its end; on failure advance one character.
Fuel `html.length + 1` always suffices because every pattern used here
consumes at least one character. -/
def execAll (pat : RE) : Nat → List Char → List (List (Nat × List Char))
  | 0, _ => []
  | fuel + 1, l =>
    match matchRE pat l [] (fun rem caps => some (rem, caps)) with
    | some (rem, caps) => caps :: execAll pat fuel rem
    | none =>
      match l with
      | [] => []
      | _ :: rest => execAll pat fuel rest

/-- First recorded capture for a group index (`match[i]`; `none` is
JavaScript `undefined`). -/
def lookupCap (caps : List (Nat × List Char)) (i : Nat) : Option (List Char) :=
  (caps.find? (fun e => e.1 == i)).map (fun e => e.2)

/-- Case-sensitive substring test (`String.prototype.includes`). -/
def containsSub (pat : List Char) : List Char → Bool
  | [] => pat.isEmpty
  | c :: rest => startsLit pat (c :: rest) || containsSub pat rest

/-- `["']` -/
def quoteCls : RE := .cls false ['"', '\'']

/-- `(application\/(?:rss|atom)\+xml|text\/xml)` -/
def typeAlt : RE :=
  .alt (.seq (.lit "application/".data)
          (.seq (.alt (.lit "rss".data) (.lit "atom".data)) (.lit "+xml".data)))
    (.lit "text/xml".data)

def reSeq (rs : List RE) : RE := rs.foldr RE.seq (.lit [])

/-- `(?:title=["']([^"']+)["'])?` -/
def titleOpt : RE :=
  .opt (reSeq [.lit "title=".data, quoteCls,
    .group 3 (.plusCls true ['"', '\'']), quoteCls])

/-- Pattern 1 (routes.ts line 117): `type` before `href`. -/
def pattern1 : RE :=
  reSeq [.lit "<link".data, .plusCls true ['>'],
    .lit "type=".data, quoteCls, .group 1 typeAlt, quoteCls,
    .starCls true ['>'],
    .lit "href=".data, quoteCls, .group 2 (.plusCls true ['"', '\'']), quoteCls,
    .starCls true ['>'], titleOpt, .starCls true ['>'],
    .opt (.lit "/".data), .lit ">".data]

/-- Pattern 2 (routes.ts line 139): `href` before `type`. -/
def pattern2 : RE :=
  reSeq [.lit "<link".data, .starCls true ['>'],
    .lit "href=".data, quoteCls, .group 1 (.plusCls true ['"', '\'']), quoteCls,
    .starCls true ['>'],
    .lit "type=".data, quoteCls, .group 2 typeAlt, quoteCls,
    .starCls true ['>'], titleOpt, .starCls true ['>'],
    .opt (.lit "/".data), .lit ">".data]

/-- Split a URL after its `scheme://`, accumulating the prefix. -/
def splitAfterScheme (acc : List Char) : List Char → List Char × List Char
  | [] => (acc, [])
  | ':' :: '/' :: '/' :: rest => (acc ++ [':', '/', '/'], rest)
  | c :: rest => splitAfterScheme (acc ++ [c]) rest

/-- Modelled from the spec: the WHATWG `new URL(href, base)` resolution
(the platform API used at routes.ts lines 125/146 is not part of the
repository).  "Relative `href` values are resolved against the
document's URL": a path-absolute href is joined to the base's origin,
any other relative href to the base up to its last slash. -/
def resolveUrl (href base : List Char) : List Char :=
  match href with
  | '/' :: _ =>
    let (pre, rest) := splitAfterScheme [] base
    pre ++ rest.takeWhile (fun c => c ≠ '/') ++ href
  | _ =>
    (base.rdropWhile (fun c => c ≠ '/')) ++ href

structure FeedCand where
  url : List Char
  title : List Char
  type : List Char
deriving DecidableEq

/-- The shared body of the two `while` loops of `discoverFeeds`
(routes.ts lines 118-157): read the captures, default the title to
`"RSS Feed"`, resolve the href against the base URL unless it already
starts with `http`, deduplicate by resolved URL, and tag the type by
searching `"atom"` in the captured MIME type. -/
def processMatches (base : List Char) (typeIdx hrefIdx : Nat) :
    List (List (Nat × List Char)) → List (List Char) → List FeedCand →
    List (List Char) × List FeedCand
  | [], seen, acc => (seen, acc)
  | caps :: rest, seen, acc =>
    match lookupCap caps typeIdx, lookupCap caps hrefIdx with
    | some ty, some href0 =>
      let title := (lookupCap caps 3).getD "RSS Feed".data
      let href := if startsLit "http".data href0 then href0
        else resolveUrl href0 base
      if seen.contains href then
        processMatches base typeIdx hrefIdx rest seen acc
      else
        let cand : FeedCand :=
          { url := href, title := title,
            type := if containsSub "atom".data ty then "Atom".data
              else "RSS".data }
        processMatches base typeIdx hrefIdx rest (seen ++ [href]) (acc ++ [cand])
    | _, _ => processMatches base typeIdx hrefIdx rest seen acc

/-- The link-tag scanning stage of `discoverFeeds` on a fetched HTML
document: pattern 1 (`type` first, captures `(type, href, title?)` as
groups 1-3), then pattern 2 (`href` first, captures `(href, type,
title?)`), sharing the deduplication set. -/
def discoverScan (html base : List Char) : List FeedCand :=
  let m1 := execAll pattern1 (html.length + 1) html
  let (seen1, acc1) := processMatches base 1 2 m1 [] []
  let m2 := execAll pattern2 (html.length + 1) html
  (processMatches base 2 1 m2 seen1 acc1).2

/-! ## C7: the OPML codec (export: routes.ts lines 521-572; import:
routes.ts lines 575-699) -/
/-- Global replacement of one character by a string
(`.replace(/c/g, r)`). -/
def replaceChar (c : Char) (r : List Char) : List Char → List Char
  | [] => []
  | x :: rest =>
    if x == c then r ++ replaceChar c r rest else x :: replaceChar c r rest

/-- `escapeXml` (routes.ts lines 750-757): the five replacements applied
in source order (`&` first, `'` last). -/
def escapeXml (l : List Char) : List Char :=
  replaceChar '\'' "&apos;".data
    (replaceChar '"' "&quot;".data
      (replaceChar '>' "&gt;".data
        (replaceChar '<' "&lt;".data
          (replaceChar '&' "&amp;".data l))))

/-- Insertion sort of feeds by title, modelling the `orderBy:
[feeds.title]` of `getFeeds` (storage.ts line 107). -/
def charListLe : List Char → List Char → Bool
  | [], _ => true
  | _ :: _, [] => false
  | a :: as, b :: bs => if a == b then charListLe as bs else decide (a < b)

def insertByTitle (f : Feed) : List Feed → List Feed
  | [] => [f]
  | g :: t =>
    if charListLe f.title g.title then f :: g :: t else g :: insertByTitle f t

/-- `getFeeds` (storage.ts lines 102-126), reduced to the fields the
OPML export reads: the feed rows sorted by title. -/
def getFeeds : Store → List Feed := fun s => sortFeeds s.feeds
where
  sortFeeds : List Feed → List Feed
    | [] => []
    | f :: t => insertByTitle f (sortFeeds t)

/-- The `feedsByCategory` grouping of the export (routes.ts lines
535-542): the feeds of one category key, in `getFeeds` order. -/
def feedsByCategory (feeds : List Feed) (catId : Option Nat) : List Feed :=
  feeds.filter (fun f => f.categoryId == catId)

/-- One `<outline type="rss" .../>` element (routes.ts lines 550/559);
`indent` is the leading newline-and-spaces of the template literal. -/
def feedOutline (indent : List Char) (f : Feed) : List Char :=
  indent ++ "<outline type=\"rss\" text=\"".data ++ escapeXml f.title ++
  "\" title=\"".data ++ escapeXml f.title ++
  "\" xmlUrl=\"".data ++ escapeXml f.url ++ "\"".data ++
  (match truthy f.siteUrl with
   | some su => " htmlUrl=\"".data ++ escapeXml su ++ "\"".data
   | none => []) ++ " />".data

/-- A category folder and its feeds (routes.ts lines 548-552). -/
def categoryOutline (cat : Category) (catFeeds : List Feed) : List Char :=
  "\n    <outline text=\"".data ++ escapeXml cat.name ++
  "\" title=\"".data ++ escapeXml cat.name ++ "\">".data ++
  catFeeds.foldl (fun acc f => acc ++ feedOutline "\n      ".data f) [] ++
  "\n    </outline>".data

def opmlHeader (nowIso : List Char) : List Char :=
  "<?xml version=\"1.0\" encoding=\"UTF-8\"?>\n<opml version=\"2.0\">\n  <head>\n    <title>ModernFeed RSS Subscriptions</title>\n    <dateCreated>".data ++
  nowIso ++ "</dateCreated>\n  </head>\n  <body>".data

def opmlFooter : List Char := "\n  </body>\n</opml>".data

/-- `GET /api/opml/export`: header, one folder per category that has
feeds, top-level outlines for uncategorized feeds, footer.  The
`dateCreated` ISO timestamp is a parameter. -/
def exportOpml (s : Store) (nowIso : List Char) : List Char :=
  let feeds := getFeeds s
  let categories := getCategories s
  opmlHeader nowIso ++
  categories.foldl (fun acc cat =>
    let categoryFeeds := feedsByCategory feeds (some cat.id)
    if categoryFeeds.isEmpty then acc
    else acc ++ categoryOutline cat categoryFeeds) [] ++
  (feedsByCategory feeds none).foldl
    (fun acc f => acc ++ feedOutline "\n    ".data f) [] ++
  opmlFooter

/-! ### OPML import -/
/-- Accumulate characters up to and including the first `>`. -/
def takeThroughGt (acc : List Char) : List Char → Option (List Char × List Char)
  | [] => none
  | c :: rest =>
    if c == '>' then some (acc ++ [c], rest)
    else takeThroughGt (acc ++ [c]) rest

/-- `opml.match(/<outline[^>]*>/gi)` (routes.ts lines 586-587): every
non-overlapping `<outline ...>` opening tag, in document order.  Fuel
`l.length + 1` always suffices since every match consumes at least one
character. -/
def findOutlineTags : Nat → List Char → List (List Char)
  | 0, _ => []
  | fuel + 1, l =>
    if startsLitCI "<outline".data l then
      match takeThroughGt [] (l.drop 8) with
      | some (body, rest) => (l.take 8 ++ body) :: findOutlineTags fuel rest
      | none =>
        match l with
        | [] => []
        | _ :: rest => findOutlineTags fuel rest
    else
      match l with
      | [] => []
      | _ :: rest => findOutlineTags fuel rest

/-- The outline tags of a document, at adequate fuel. -/
def outlineTags (l : List Char) : List (List Char) :=
  findOutlineTags (l.length + 1) l

/-- Try `attr=["']([^"']+)["']` (case-insensitively) at the start of the
input; `name` includes the `=`. -/
def matchAttrAt (name : List Char) (l : List Char) : Option (List Char) :=
  if startsLitCI name l then
    match l.drop name.length with
    | q :: rest =>
      if q == '"' || q == '\'' then
        let cap := rest.takeWhile (fun c => c ≠ '"' && c ≠ '\'')
        match rest.drop cap.length with
        | q2 :: _ =>
          if (q2 == '"' || q2 == '\'') && !cap.isEmpty then some cap else none
        | [] => none
      else none
    | [] => none
  else none

/-- `m.match(/attr=["']([^"']+)["']/i)`: the first position where the
attribute pattern matches, returning its capture. -/
def matchAttr (name : List Char) : List Char → Option (List Char)
  | [] => none
  | c :: rest =>
    match matchAttrAt name (c :: rest) with
    | some cap => some cap
    | none => matchAttr name rest

/-- One feed reference extracted from the OPML token stream. -/
structure FeedRef where
  url : List Char
  title : Option (List Char)
  category : Option (List Char)
deriving DecidableEq

/-- The tag-stream scan of the import (routes.ts lines 589-608): a tag
with `xmlUrl` is a feed reference (title from `title` falling back to
`text`, category from the current context); a tag without `type` and
without `xmlUrl` but with `text` switches the category context. -/
def collectFeedRefs : List (List Char) → Option (List Char) → List FeedRef
  | [], _ => []
  | m :: rest, currentCategory =>
    match matchAttr "xmlUrl=".data m with
    | some u =>
      { url := u,
        title := jsOrOpt (matchAttr "title=".data m) (matchAttr "text=".data m),
        category := currentCategory } :: collectFeedRefs rest currentCategory
    | none =>
      match matchAttr "type=".data m, matchAttr "text=".data m with
      | none, some t => collectFeedRefs rest (some t)
      | _, _ => collectFeedRefs rest currentCategory

/-- `x.toLowerCase() === y.toLowerCase()` over Basic Latin. -/
def eqCI : List Char → List Char → Bool
  | [], [] => true
  | a :: as, b :: bs => ciEq a b && eqCI as bs
  | _, _ => false

structure ImportResult where
  imported : Nat
  skipped : Nat
  total : Nat
  errors : List (List Char)
deriving DecidableEq

/-- The per-reference import loop (routes.ts lines 614-686): skip
already-subscribed URLs, record parse failures as error strings,
resolve or create the category by case-insensitive name, create the
feed, ingest up to 20 items, stamp `lastFetched`. -/
def runImport (parse : List Char → Option ParsedFeed)
    (favicon : List Char → Option (List Char)) (now : Nat) :
    List FeedRef → Store → Nat → Nat → List (List Char) →
    Store × Nat × Nat × List (List Char)
  | [], s, imp, skp, errs => (s, imp, skp, errs)
  | fr :: rest, s, imp, skp, errs =>
    match getFeedByUrl s fr.url with
    | some _ => runImport parse favicon now rest s imp (skp + 1) errs
    | none =>
      match parse fr.url with
      | none =>
        runImport parse favicon now rest s imp skp
          (errs ++ ["Failed to parse: ".data ++ fr.url])
      | some pf =>
        let fav := favicon ((jsOrOpt pf.link (some fr.url)).getD fr.url)
        let catStep : Store × Option Nat :=
          match fr.category with
          | none => (s, none)
          | some catName =>
            match s.categories.find? (fun c => eqCI c.name catName) with
            | some c => (s, some c.id)
            | none =>
              let created := createCategory s catName
              (created.1, some created.2.id)
        let newFeed : Feed :=
          { id := 0, url := fr.url, siteUrl := truthy pf.link,
            title := (jsOrOpt fr.title (jsOrOpt pf.title
              (some "Untitled Feed".data))).getD [],
            description := truthy pf.description, favicon := fav,
            categoryId := catStep.2, lastFetched := none,
            errorCount := some 0, isActive := true }
        let created := createFeed catStep.1 newFeed
        let s4 := (syncItems created.2.id now (pf.items.take 20) created.1).1
        let s5 := updateFeed s4 created.2.id { lastFetched := some now }
        runImport parse favicon now rest s5 (imp + 1) skp errs

/-- `POST /api/opml/import` on an OPML document string. -/
def importOpml (parse : List Char → Option ParsedFeed)
    (favicon : List Char → Option (List Char)) (now : Nat)
    (opml : List Char) (s : Store) : Store × ImportResult :=
  let refs := collectFeedRefs (outlineTags opml) none
  let r := runImport parse favicon now refs s 0 0 []
  (r.1, { imported := r.2.1, skipped := r.2.2.1, total := refs.length,
          errors := r.2.2.2 })

/-! ### C7 counterexample data: a feed URL containing `&` -/
def c7cxF1 : Feed :=
  { id := 2, url := "https://a.example/?x=1&y=2".data, siteUrl := none,
    title := "Alpha".data, description := none, favicon := none,
    categoryId := some 1, lastFetched := none, errorCount := some 0,
    isActive := true }

def c7cxF2 : Feed :=
  { id := 3, url := "https://b.example/feed".data, siteUrl := none,
    title := "Beta".data, description := none, favicon := none,
    categoryId := some 1, lastFetched := none, errorCount := some 0,
    isActive := true }

def c7cxStore : Store :=
  { feeds := [c7cxF1, c7cxF2], articles := [],
    categories := [{ id := 1, name := "News".data }], nextId := 4 }

def c7cxDoc : List Char := exportOpml c7cxStore "2026-01-01T00:00:00.000Z".data

def c7cxOut : Store × ImportResult :=
  importOpml (fun _ => some emptyParsedFeed) (fun _ => none) 7 c7cxDoc
    { feeds := [], articles := [], categories := [], nextId := 0 }

/-! ### C7 general lemmas: safe attribute values -/
/-- Characters that survive the export-import roundtrip untouched: no
XML specials (which `escapeXml` rewrites and the import never
unescapes) and no `=` (which could spoof the import's substring-based
attribute extraction). -/
def valSafe (c : Char) : Bool :=
  !(c == '&' || c == '<' || c == '>' || c == '"' || c == '\'' || c == '=')

/-- A usable attribute value: nonempty and all characters safe. -/
def strSafe (v : List Char) : Prop := v ≠ [] ∧ ∀ c ∈ v, valSafe c = true

/-! ### C7 general lemmas: refuting a case-insensitive literal -/
/-- A definite mismatch between `pat` and the input within the input's
available characters (so no continuation can repair it). -/
def refutesAtCI : List Char → List Char → Bool
  | [], _ => false
  | _ :: _, [] => false
  | p :: ps, c :: cs => !(ciEq p c) || refutesAtCI ps cs

/-- Every suffix of the chunk refutes `pat` within the chunk itself. -/
def chunkRefutes (pat : List Char) : List Char → Bool
  | [] => true
  | c :: rest => refutesAtCI pat (c :: rest) && chunkRefutes pat rest

/-! ### C7: the exported tags and what the import extracts from them -/
/-- The category folder opening tag without its final `>`. -/
def catTagBody (name : List Char) : List Char :=
  "<outline text=\"".data ++ name ++ "\" title=\"".data ++ name ++ "\"".data

/-- A feed outline tag without its final `>`. -/
def feedTagBody (f : Feed) : List Char :=
  "<outline type=\"rss\" text=\"".data ++ f.title ++ "\" title=\"".data ++
  f.title ++ "\" xmlUrl=\"".data ++ f.url ++ "\"".data ++
  (match truthy f.siteUrl with
   | some su => " htmlUrl=\"".data ++ su ++ "\"".data
   | none => []) ++ " /".data

/-- The feed row the import inserts for one reference (the `newFeed`
object of routes.ts lines 648-659 after id generation). -/
def importedFeed (favicon : List Char → Option (List Char)) (u ti : List Char)
    (pf : ParsedFeed) (cid fid : Nat) : Feed :=
  { id := fid, url := u, siteUrl := truthy pf.link, title := ti,
    description := truthy pf.description,
    favicon := favicon ((jsOrOpt pf.link (some u)).getD u),
    categoryId := some cid, lastFetched := none, errorCount := some 0,
    isActive := true }

def c7wF1 : Feed :=
  { id := 11, url := "https://a.example/feed".data, siteUrl := none,
    title := "Alpha".data, description := none, favicon := none,
    categoryId := some 5, lastFetched := none, errorCount := some 0,
    isActive := true }

def c7wF2 : Feed :=
  { id := 12, url := "https://b.example/feed".data, siteUrl := none,
    title := "Beta".data, description := none, favicon := none,
    categoryId := some 5, lastFetched := none, errorCount := some 0,
    isActive := true }

def c7wCat : Category := { id := 5, name := "News".data }

def c7wStore : Store :=
  { feeds := [c7wF1, c7wF2], articles := [], categories := [c7wCat],
    nextId := 13 }

def c7wParse : List Char → Option ParsedFeed := fun _ => some emptyParsedFeed

def c7wFav : List Char → Option (List Char) := fun _ => none

def c7wIso : List Char := "2026-01-01T00:00:00.000Z".data

def c7wDoc : List Char := exportOpml c7wStore c7wIso

def c7wEmpty : Store :=
  { feeds := [], articles := [], categories := [], nextId := 0 }

def c7wOut : Store × ImportResult := importOpml c7wParse c7wFav 7 c7wDoc c7wEmpty

/-! ## Theorems -/

/-! ## Lemmas: end-trimming composition -/
theorem ciEq_comm (a b : Char) : ciEq a b = ciEq b a := by
  simp only [ciEq]
  rw [Bool.eq_iff_iff]
  simp only [Bool.or_eq_true, Bool.and_eq_true, beq_iff_eq, decide_eq_true_eq]
  constructor
  · rintro ((h | h) | h)
    · exact Or.inl (Or.inl h.symm)
    · exact Or.inr h
    · exact Or.inl (Or.inr h)
  · rintro ((h | h) | h)
    · exact Or.inl (Or.inl h.symm)
    · exact Or.inr h
    · exact Or.inl (Or.inr h)

theorem dropWhile_dropWhile_of_imp {p q : Char → Bool}
    (h : ∀ c, q c = true → p c = true) (l : List Char) :
    (l.dropWhile q).dropWhile p = l.dropWhile p := by
  induction l with
  | nil => rfl
  | cons c t ih =>
    by_cases hq : q c
    · rw [List.dropWhile_cons_of_pos hq, ih, List.dropWhile_cons_of_pos (h c hq)]
    · rw [List.dropWhile_cons_of_neg hq]

theorem rdropWhile_rdropWhile_of_imp {p q : Char → Bool}
    (h : ∀ c, q c = true → p c = true) (l : List Char) :
    (l.rdropWhile q).rdropWhile p = l.rdropWhile p := by
  simp only [List.rdropWhile, List.reverse_reverse]
  rw [dropWhile_dropWhile_of_imp h]

theorem rdropWhile_cons_eq (q : Char → Bool) (c : Char) (t : List Char) :
    (c :: t).rdropWhile q = if (c :: t).all q then [] else c :: t.rdropWhile q := by
  simp only [List.rdropWhile, List.reverse_cons, List.dropWhile_append]
  by_cases hall : ∀ x ∈ t, q x = true
  · have hnil : t.reverse.dropWhile q = [] := by
      rw [List.dropWhile_eq_nil_iff]; intro x hx
      exact hall x (List.mem_reverse.mp hx)
    rw [hnil]
    by_cases hc : q c
    · have hallc : (c :: t).all q = true := by
        rw [List.all_eq_true]
        intro x hx
        rcases List.mem_cons.mp hx with h | h
        · subst h; exact hc
        · exact hall x h
      simp [hallc, List.dropWhile, hc]
    · have hallc : (c :: t).all q = false := by
        rw [Bool.eq_false_iff]
        intro hcon
        exact hc (List.all_eq_true.mp hcon c (List.mem_cons_self c t))
      simp [hallc, List.dropWhile, hc, List.rdropWhile, hnil]
  · have hne : ¬ t.reverse.dropWhile q = [] := by
      rw [List.dropWhile_eq_nil_iff]
      intro hc; exact hall (fun x hx => hc x (List.mem_reverse.mpr hx))
    have hall2 : (c :: t).all q = false := by
      rw [Bool.eq_false_iff]
      intro hcon
      rw [List.all_eq_true] at hcon
      exact hall (fun x hx => hcon x (List.mem_cons_of_mem c hx))
    simp [hall2, List.isEmpty_iff, hne]

theorem dropWhile_rdropWhile_comm (p q : Char → Bool) (l : List Char) :
    (l.rdropWhile q).dropWhile p = (l.dropWhile p).rdropWhile q := by
  induction l with
  | nil => rfl
  | cons c t ih =>
    rw [rdropWhile_cons_eq]
    by_cases hall : (c :: t).all q
    · rw [if_pos hall, List.dropWhile_nil]
      have : ∀ x ∈ (c :: t).dropWhile p, q x = true := by
        intro x hx
        exact (List.all_eq_true.mp hall) x ((List.dropWhile_suffix p).subset hx)
      rw [eq_comm, List.rdropWhile_eq_nil_iff]
      exact this
    · rw [if_neg hall]
      by_cases hp : p c
      · rw [List.dropWhile_cons_of_pos hp, List.dropWhile_cons_of_pos hp, ih]
      · rw [List.dropWhile_cons_of_neg hp, List.dropWhile_cons_of_neg hp,
          rdropWhile_cons_eq, if_neg hall]

theorem trimEnds_trimEnds_of_imp {p q : Char → Bool}
    (h : ∀ c, q c = true → p c = true) (l : List Char) :
    trimEnds p (trimEnds q l) = trimEnds p l := by
  unfold trimEnds
  rw [dropWhile_rdropWhile_comm, dropWhile_dropWhile_of_imp h,
    rdropWhile_rdropWhile_of_imp h]

theorem ciEq_colon (d : Char) : ciEq ':' d = (':' == d) := by
  simp only [ciEq]
  rw [Bool.eq_iff_iff]
  simp only [Bool.or_eq_true, Bool.and_eq_true, beq_iff_eq, decide_eq_true_eq]
  constructor
  · rintro ((h | ⟨⟨h1, h2⟩, h3⟩) | ⟨⟨h1, h2⟩, h3⟩)
    · exact h
    · exact absurd h1 (by decide)
    · exfalso
      have hcolon : (':' : Char).toNat = 58 := by decide
      omega
  · exact fun h => Or.inl (Or.inl h)

theorem ciEq_slash (d : Char) : ciEq '/' d = ('/' == d) := by
  simp only [ciEq]
  rw [Bool.eq_iff_iff]
  simp only [Bool.or_eq_true, Bool.and_eq_true, beq_iff_eq, decide_eq_true_eq]
  constructor
  · rintro ((h | ⟨⟨h1, h2⟩, h3⟩) | ⟨⟨h1, h2⟩, h3⟩)
    · exact h
    · exact absurd h1 (by decide)
    · exfalso
      have hslash : ('/' : Char).toNat = 47 := by decide
      omega
  · exact fun h => Or.inl (Or.inl h)

theorem startsLit_tricolon (r : List Char) :
    startsLit "://".data r = startsLitCI "://".data r := by
  rcases r with _ | ⟨d1, _ | ⟨d2, _ | ⟨d3, t⟩⟩⟩ <;>
    simp [startsLit, startsLitCI, ciEq_colon, ciEq_slash, String.data]

theorem matchesHttpScheme_eq_spec (l : List Char) :
    matchesHttpScheme l = specHasHttpScheme l := by
  rcases l with _ | ⟨c1, _ | ⟨c2, _ | ⟨c3, _ | ⟨c4, rest⟩⟩⟩⟩ <;>
    simp only [matchesHttpScheme, specHasHttpScheme, startsLitCI, String.data,
      String.toList, Bool.or_false, Bool.and_false, Bool.false_and] <;>
    try rfl
  rcases rest with _ | ⟨c5, rest2⟩
  · simp [startsLitCI, ciEq_comm]
  · dsimp only
    rw [startsLit_tricolon, startsLit_tricolon]
    simp only [startsLitCI]
    rw [ciEq_comm c1 'h', ciEq_comm c2 't', ciEq_comm c3 't', ciEq_comm c4 'p',
      ciEq_comm c5 's']
    cases ciEq 'h' c1 <;> cases ciEq 't' c2 <;> cases ciEq 't' c3 <;>
      cases ciEq 'p' c4 <;> cases ciEq 's' c5 <;>
      cases ciEq ':' c5 <;> cases startsLitCI [':', '/', '/'] rest2 <;>
      cases startsLitCI ['/', '/'] rest2 <;> rfl

/-- C9: for every input string the URL normalizer strips leading and
trailing whitespace and zero-width-space characters and prepends
`https://` exactly when the stripped string has no case-insensitive
`http://` or `https://` prefix, leaving an existing prefix untouched;
the three concrete examples of the spec hold; normalization is a total
function, so it never fails. -/
theorem c9_normalizeUrl_spec (s : List Char) :
    (normalizeUrl s =
      (if specHasHttpScheme (trimEnds isWsZwsp s) then trimEnds isWsZwsp s
       else "https://".data ++ trimEnds isWsZwsp s)) ∧
    normalizeUrl "example.com".data = "https://example.com".data ∧
    normalizeUrl (" https://foo.com".data ++ [zwsp, ' ']) = "https://foo.com".data ∧
    normalizeUrl "HTTP://x.com".data = "HTTP://x.com".data := by
  refine ⟨?_, by decide, by decide, by decide⟩
  show (if matchesHttpScheme (trimEnds isWsZwsp (jsTrim s)) then _ else _) = _
  rw [jsTrim, @trimEnds_trimEnds_of_imp isWsZwsp isJsSpace
    (fun c hc => by simp [isWsZwsp, hc]), matchesHttpScheme_eq_spec]

theorem jsLastIndexOfSpace_eq_spec (l : List Char) (n : Nat) :
    jsLastIndexOfSpace l n = lastSpaceAtOrBefore l n := by
  induction n with
  | zero =>
    by_cases h : l.getD 0 'x' = ' ' <;>
      simp [jsLastIndexOfSpace, lastSpaceAtOrBefore, Nat.findGreatest, h]
  | succ n ih =>
    have hrange : (List.range (n + 1 + 1)).any (fun i => l.getD i 'x' == ' ') =
        ((List.range (n + 1)).any (fun i => l.getD i 'x' == ' ') ||
          (l.getD (n + 1) 'x' == ' ')) := by
      rw [List.range_succ, List.any_append]
      simp
    by_cases h : l.getD (n + 1) 'x' = ' '
    · have hb : (l.getD (n + 1) 'x' == ' ') = true := by
        rw [beq_iff_eq]; exact h
      unfold jsLastIndexOfSpace lastSpaceAtOrBefore
      rw [hb, hrange, hb, Bool.or_true, if_pos rfl, if_pos rfl,
        Nat.findGreatest_succ, if_pos h]
    · have hb : (l.getD (n + 1) 'x' == ' ') = false := by
        rw [Bool.eq_false_iff]
        intro hcon
        exact h (beq_iff_eq.mp hcon)
      unfold jsLastIndexOfSpace
      rw [hb]
      simp only [Bool.false_eq_true, if_false]
      rw [ih]
      unfold lastSpaceAtOrBefore
      rw [hrange, hb, Bool.or_false, Nat.findGreatest_succ, if_neg h]

theorem rdropWhile_headD (q : Char → Bool) (X : List Char) (d : Char) :
    X.rdropWhile q = [] ∨ (X.rdropWhile q).headD d = X.headD d := by
  cases X with
  | nil => exact Or.inl (by simp [List.rdropWhile])
  | cons c t =>
    rw [rdropWhile_cons_eq]
    by_cases hall : (c :: t).all q
    · exact Or.inl (by rw [if_pos hall])
    · exact Or.inr (by rw [if_neg hall]; rfl)

theorem jsTrim_headD_not_space (l : List Char) :
    jsTrim l = [] ∨ isJsSpace ((jsTrim l).headD 'x') = false := by
  have hjt : jsTrim l = (l.dropWhile isJsSpace).rdropWhile isJsSpace := rfl
  rcases hdw : l.dropWhile isJsSpace with _ | ⟨c, t⟩
  · left
    rw [hjt, hdw]
    simp [List.rdropWhile]
  · have hc : isJsSpace c = false := by
      have h2 := List.head?_dropWhile_not isJsSpace l
      rw [hdw] at h2
      simpa using h2
    rcases rdropWhile_headD isJsSpace (c :: t) 'x' with h | h
    · left
      rw [hjt, hdw, h]
    · right
      rw [hjt, hdw, h]
      exact hc

/-- C5 (amended: the truncation boundary is the last *space* character
U+0020 at or before index 200, not an arbitrary whitespace character):
for every nonempty input text, summary derivation strips markup tags,
trims the result, returns it verbatim when at most 200 characters long,
and otherwise truncates at the last space at or before index 200 (hard
cut at 200 when no space exists) and appends an ellipsis; a 250-character
plain string with a space at index 100 truncates there, and a
150-character plain string is returned unchanged. -/
theorem c5_extractSummary_spec (content : List Char) (hne : content ≠ []) :
    extractSummary (some content) 200 =
      some (summarySpec (jsTrim (stripTags content))) ∧
    extractSummary
      (some (List.replicate 100 'a' ++ [' '] ++ List.replicate 149 'b')) 200 =
      some (List.replicate 100 'a' ++ "...".data) ∧
    extractSummary (some (List.replicate 150 'a')) 200 =
      some (List.replicate 150 'a') := by
  refine ⟨?_, by decide, by decide⟩
  have hne2 : content.isEmpty = false := by
    cases content
    · exact absurd rfl hne
    · rfl
  simp only [extractSummary, hne2, Bool.false_eq_true, if_false]
  set text := jsTrim (stripTags content) with htext
  by_cases hlen : text.length ≤ 200
  · simp [summarySpec, hlen]
  · simp only [hlen, if_false, summarySpec, jsLastIndexOfSpace_eq_spec]
    rcases hsp : lastSpaceAtOrBefore text 200 with _ | i
    · rfl
    · have hi : 0 < i := by
        rcases Nat.eq_zero_or_pos i with h | h
        swap
        · exact h
        · exfalso
          subst h
          unfold lastSpaceAtOrBefore at hsp
          by_cases hany :
              (List.range (200 + 1)).any (fun i => text.getD i 'x' == ' ') = true
          · rw [if_pos hany] at hsp
            have h0 := Option.some.inj hsp
            have hex : ∃ j, j ≤ 200 ∧ text.getD j 'x' = ' ' := by
              rw [List.any_eq_true] at hany
              obtain ⟨j, hj, hjs⟩ := hany
              exact ⟨j, by
                have := List.mem_range.mp hj; omega, by simpa using hjs⟩
            obtain ⟨j, hj, hjs⟩ := hex
            have hgz : text.getD 0 'x' = ' ' := by
              rcases Nat.eq_zero_or_pos j with hjz | hjp
              · subst hjz; exact hjs
              · have := @Nat.le_findGreatest j (fun i => text.getD i 'x' = ' ')
                  _ 200 hj hjs
                omega
            have hnonempty : text ≠ [] := by
              intro hcon
              rw [hcon] at hlen
              exact hlen (by simp)
            rcases jsTrim_headD_not_space (stripTags content) with h | h
            · rw [← htext] at h; exact hnonempty h
            · rw [← htext] at h
              rcases htl : text with _ | ⟨c0, t0⟩
              · exact hnonempty htl
              · rw [htl] at hgz h
                simp only [List.headD_cons] at h
                have hc0 : c0 = ' ' := by simpa using hgz
                rw [hc0] at h
                exact absurd h (by decide)
          · rw [if_neg hany] at hsp
            exact Option.noConfusion hsp
      simp [hi]

/-- C5 witness instantiation data. -/
theorem c5_extractSummary_spec_witness :
    extractSummary (some "hello".data) 200 =
      some (summarySpec (jsTrim (stripTags "hello".data))) :=
  (c5_extractSummary_spec "hello".data (by decide)).1

/-- C5 counterexample: the claim as stated (truncate at the last
*whitespace* boundary at or before character 200) fails on a
250-character tag-free string whose only whitespace is a newline at
index 100: the code hard-cuts at 200 instead of truncating at the
newline. -/
theorem c5_counterexample :
    (extractSummary
        (some (List.replicate 100 'a' ++ ['\n'] ++ List.replicate 149 'b')) 200 =
      some ((List.replicate 100 'a' ++ ['\n'] ++ List.replicate 149 'b').take 200 ++
        "...".data)) ∧
    ((List.replicate 100 'a' ++ ['\n'] ++ List.replicate 149 'b').take 200 ++
        "...".data ≠
      (List.replicate 100 'a' ++ ['\n'] ++ List.replicate 149 'b').take 100 ++
        "...".data) ∧
    jsTrim (stripTags (List.replicate 100 'a' ++ ['\n'] ++ List.replicate 149 'b')) =
      List.replicate 100 'a' ++ ['\n'] ++ List.replicate 149 'b' ∧
    isJsSpace ((List.replicate 100 'a' ++ ['\n'] ++ List.replicate 149 'b').getD
      100 'x') = true ∧
    (List.replicate 100 'a' ++ ['\n'] ++ List.replicate 149 'b').length = 250 := by
  refine ⟨by decide, by decide, by decide, by decide, by decide⟩

/-! ## Lemmas about the sync engine -/
theorem syncItems_feeds_categories (feedId now : Nat) (items : List ParsedItem)
    (s : Store) :
    (syncItems feedId now items s).1.feeds = s.feeds ∧
    (syncItems feedId now items s).1.categories = s.categories := by
  induction items generalizing s with
  | nil => exact ⟨rfl, rfl⟩
  | cons it rest ih =>
    simp only [syncItems]
    cases getArticleByGuid s feedId (deriveGuid it) with
    | some a => exact ih s
    | none =>
      rcases hsi : syncItems feedId now rest
          ((createArticle s (articleOfItem feedId now it)).1) with ⟨s3, n⟩
      have h2 := ih ((createArticle s (articleOfItem feedId now it)).1)
      rw [hsi] at h2
      simpa [createArticle] using h2

theorem map_update_id_of_ne (fid : Nat) (p : FeedPatch) (l : List Feed)
    (h : ∀ g ∈ l, g.id ≠ fid) :
    l.map (fun g => if g.id == fid then applyPatch g p else g) = l := by
  induction l with
  | nil => rfl
  | cons g t ih =>
    have hg : (g.id == fid) = false := by
      simp [h g (List.mem_cons_self g t)]
    simp only [List.map_cons, hg, Bool.false_eq_true, if_false]
    rw [ih (fun x hx => h x (List.mem_cons_of_mem g hx))]

theorem updateFeed_split (s : Store) (fid : Nat) (p : FeedPatch)
    (pre post : List Feed) (f : Feed)
    (hsplit : s.feeds = pre ++ f :: post) (hf : f.id = fid)
    (hid : ∀ g ∈ pre ++ post, g.id ≠ fid) :
    (updateFeed s fid p).feeds = pre ++ applyPatch f p :: post := by
  show (s.feeds.map (fun g => if g.id == fid then applyPatch g p else g)) = _
  rw [hsplit, List.map_append, List.map_cons]
  rw [map_update_id_of_ne fid p pre
    (fun g hg => hid g (List.mem_append_left _ hg))]
  rw [map_update_id_of_ne fid p post
    (fun g hg => hid g (List.mem_append_right _ hg))]
  have : (f.id == fid) = true := by simp [hf]
  rw [this, if_pos rfl]

/-- C3: on parse failure the feed's `errorCount` is incremented by
exactly one and nothing else in the store changes (no articles, no
categories, no other feed, and the feed's own other fields including
`lastFetched` are untouched); on parse success `errorCount` is reset to
0 and `lastFetched` is set to the current time, whatever the items. -/
theorem c3_sync_frame (s : Store) (feed : Feed) (pre post : List Feed)
    (now : Nat) (pf : ParsedFeed)
    (hsplit : s.feeds = pre ++ feed :: post)
    (hid : ∀ g ∈ pre ++ post, g.id ≠ feed.id) :
    ((syncFeedRefresh feed none now s).1.feeds =
        pre ++ { feed with errorCount := some (feed.errorCount.getD 0 + 1) } :: post) ∧
    (syncFeedRefresh feed none now s).1.articles = s.articles ∧
    (syncFeedRefresh feed none now s).1.categories = s.categories ∧
    (syncFeedRefresh feed none now s).2 = 0 ∧
    ((syncFeedRefresh feed (some pf) now s).1.feeds =
        pre ++ { feed with lastFetched := some now, errorCount := some 0 } :: post) := by
  refine ⟨?_, rfl, rfl, rfl, ?_⟩
  · exact updateFeed_split s feed.id _ pre post feed hsplit rfl hid
  · rcases hsi : syncItems feed.id now (pf.items.take 50) s with ⟨s2, n⟩
    have hfc := syncItems_feeds_categories feed.id now (pf.items.take 50) s
    rw [hsi] at hfc
    show ((syncFeedRefresh feed (some pf) now s).1).feeds = _
    simp only [syncFeedRefresh, hsi]
    exact updateFeed_split s2 feed.id _ pre post feed
      (by rw [hfc.1, hsplit]) rfl hid

/-- C3 witness instantiation data. -/
theorem c3_sync_frame_witness :
    let f : Feed :=
      { id := 7, url := "https://a.example/feed".data, siteUrl := none,
        title := "A".data, description := none, favicon := none,
        categoryId := none, lastFetched := some 3, errorCount := some 1,
        isActive := true }
    let s : Store := { feeds := [f], articles := [], categories := [], nextId := 8 }
    (syncFeedRefresh f none 9 s).1.feeds =
        [{ f with errorCount := some 2 }] ∧
    (syncFeedRefresh f (some emptyParsedFeed) 9 s).1.feeds =
      [{ f with lastFetched := some 9, errorCount := some 0 }] := by
  intro f s
  have h := c3_sync_frame s f [] [] 9 emptyParsedFeed
    rfl (by intro g hg; simp at hg)
  exact ⟨h.1, h.2.2.2.2⟩

theorem syncItems_all_existing (feedId now : Nat) (items : List ParsedItem)
    (s : Store)
    (h : ∀ it ∈ items, (getArticleByGuid s feedId (deriveGuid it)).isSome) :
    syncItems feedId now items s = (s, 0) := by
  induction items with
  | nil => rfl
  | cons it rest ih =>
    have hh := h it (List.mem_cons_self it rest)
    rcases hg : getArticleByGuid s feedId (deriveGuid it) with _ | a
    · rw [hg] at hh; simp at hh
    · simp only [syncItems, hg]
      exact ih (fun x hx => h x (List.mem_cons_of_mem it hx))

/-- C4: re-syncing a feed whose delivered items all already have an
Article for their derived `(feedId, guid)` creates zero new Articles,
and still resets `errorCount` to 0 and sets `lastFetched`. -/
theorem c4_resync_idempotent (s : Store) (feed : Feed) (pre post : List Feed)
    (now : Nat) (pf : ParsedFeed)
    (hsplit : s.feeds = pre ++ feed :: post)
    (hid : ∀ g ∈ pre ++ post, g.id ≠ feed.id)
    (hall : ∀ it ∈ pf.items.take 50,
      ∃ a ∈ s.articles, a.feedId = feed.id ∧ a.guid = deriveGuid it) :
    (syncFeedRefresh feed (some pf) now s).1.articles = s.articles ∧
    (syncFeedRefresh feed (some pf) now s).2 = 0 ∧
    (syncFeedRefresh feed (some pf) now s).1.feeds =
      pre ++ { feed with lastFetched := some now, errorCount := some 0 } :: post := by
  have hsome : ∀ it ∈ pf.items.take 50,
      (getArticleByGuid s feed.id (deriveGuid it)).isSome := by
    intro it hit
    obtain ⟨a, ha, hfi, hgu⟩ := hall it hit
    rw [getArticleByGuid, List.find?_isSome]
    exact ⟨a, ha, by simp [hfi, hgu]⟩
  have hsi : syncItems feed.id now (pf.items.take 50) s = (s, 0) :=
    syncItems_all_existing feed.id now _ s hsome
  refine ⟨?_, ?_, ?_⟩
  · show ((syncFeedRefresh feed (some pf) now s).1).articles = _
    simp only [syncFeedRefresh, hsi]
    rfl
  · simp only [syncFeedRefresh, hsi]
  · show ((syncFeedRefresh feed (some pf) now s).1).feeds = _
    simp only [syncFeedRefresh, hsi]
    exact updateFeed_split s feed.id _ pre post feed hsplit rfl hid

/-- C4 witness instantiation data. -/
theorem c4_resync_idempotent_witness :
    let f : Feed :=
      { id := 7, url := "https://a.example/feed".data, siteUrl := none,
        title := "A".data, description := none, favicon := none,
        categoryId := none, lastFetched := some 3, errorCount := some 1,
        isActive := true }
    let it : ParsedItem :=
      { guid := some "g1".data, link := none, title := none,
        contentEncoded := none, content := none, contentSnippet := none,
        creator := none, author := none, enclosureUrl := none, pubDate := none }
    let a : Article :=
      { id := 5, feedId := 7, title := "T".data, url := [], content := none,
        summary := none, author := none, imageUrl := none, publishedAt := 2,
        isRead := false, isBookmarked := false, guid := "g1".data }
    let s : Store := { feeds := [f], articles := [a], categories := [], nextId := 8 }
    let pf : ParsedFeed :=
      { title := none, link := none, description := none, items := [it] }
    (syncFeedRefresh f (some pf) 9 s).1.articles = s.articles ∧
    (syncFeedRefresh f (some pf) 9 s).2 = 0 := by
  intro f it a s pf
  have h := c4_resync_idempotent s f [] [] 9 pf rfl
    (by intro g hg; simp at hg)
    (by
      intro x hx
      have : x = it := by
        simpa [pf] using hx
      subst this
      exact ⟨a, by simp [s], by constructor <;> rfl⟩)
  exact ⟨h.1, h.2.1⟩

theorem syncItems_unique (feedId now : Nat) (items : List ParsedItem)
    (s : Store) (h : UniqueGuids s.articles) :
    UniqueGuids ((syncItems feedId now items s).1.articles) := by
  induction items generalizing s with
  | nil => exact h
  | cons it rest ih =>
    rcases hg : getArticleByGuid s feedId (deriveGuid it) with _ | a
    · simp only [syncItems, hg]
      rcases hsi : syncItems feedId now rest
          ((createArticle s (articleOfItem feedId now it)).1) with ⟨s3, n⟩
      have hnew : UniqueGuids
          ((createArticle s (articleOfItem feedId now it)).1.articles) := by
        show UniqueGuids (s.articles ++
          [{ articleOfItem feedId now it with id := s.nextId }])
        unfold UniqueGuids at h ⊢
        rw [List.pairwise_append]
        refine ⟨h, List.pairwise_singleton _ _, ?_⟩
        intro a ha b hb
        have hbeq : b = { articleOfItem feedId now it with id := s.nextId } := by
          simpa using hb
        subst hbeq
        have hnone := List.find?_eq_none.mp hg a ha
        intro hcon
        apply hnone
        simp only [Bool.and_eq_true, beq_iff_eq]
        exact ⟨hcon.1, hcon.2⟩
      have h2 := ih ((createArticle s (articleOfItem feedId now it)).1) hnew
      rw [hsi] at h2
      exact h2
    · simp only [syncItems, hg]
      exact ih s h

/-- C10: within one sync items are processed sequentially and a later
item whose derived guid duplicates an earlier item's creates no second
Article, so the per-feed `(feedId, guid)` uniqueness invariant is
preserved by any sync outcome; concretely, two items both deriving the
empty-string guid produce a single Article. -/
theorem c10_unique_guids (s : Store) (feed : Feed) (now : Nat)
    (r : Option ParsedFeed) (h : UniqueGuids s.articles) :
    UniqueGuids ((syncFeedRefresh feed r now s).1.articles) ∧
    (let blankItem : ParsedItem :=
      { guid := none, link := none, title := none, contentEncoded := none,
        content := none, contentSnippet := none, creator := none,
        author := none, enclosureUrl := none, pubDate := none }
     let pf : ParsedFeed :=
      { title := none, link := none, description := none,
        items := [blankItem, blankItem] }
     let s0 : Store := { feeds := [], articles := [], categories := [], nextId := 0 }
     let f0 : Feed :=
      { id := 1, url := [], siteUrl := none, title := [], description := none,
        favicon := none, categoryId := none, lastFetched := none,
        errorCount := none, isActive := true }
     (syncFeedRefresh f0 (some pf) now s0).2 = 1 ∧
     ((syncFeedRefresh f0 (some pf) now s0).1.articles.map Article.guid) = [[]]) := by
  constructor
  · cases r with
    | none => exact h
    | some pf =>
      rcases hsi : syncItems feed.id now (pf.items.take 50) s with ⟨s2, n⟩
      have h2 := syncItems_unique feed.id now (pf.items.take 50) s h
      rw [hsi] at h2
      show UniqueGuids ((updateFeed _ _ _).articles)
      simpa only [syncFeedRefresh, hsi] using h2
  · refine ⟨?_, ?_⟩ <;> rfl

/-- C10 witness instantiation data. -/
theorem c10_unique_guids_witness :
    UniqueGuids ((syncFeedRefresh
      { id := 1, url := [], siteUrl := none, title := [], description := none,
        favicon := none, categoryId := none, lastFetched := none,
        errorCount := none, isActive := true } none 0
      { feeds := [], articles := [], categories := [], nextId := 0 }).1.articles) :=
  (c10_unique_guids
    { feeds := [], articles := [], categories := [], nextId := 0 }
    { id := 1, url := [], siteUrl := none, title := [], description := none,
      favicon := none, categoryId := none, lastFetched := none,
      errorCount := none, isActive := true } 0 none List.Pairwise.nil).1

/-! ## C8: the feed health tracker -/
/-- C8: `health()` is a pure aggregation over all feeds: `totalFeeds`
counts every feed, a feed is listed in `feedsWithErrors` iff its
`errorCount` is at least 3, and `failingFeeds` is the number of such
feeds; a feed with two consecutive parse failures has `errorCount = 2`
and is not reported, a third failure takes it to 3 and it is reported. -/
theorem c8_health_threshold (s : Store) (f0 : Feed)
    (now1 now2 now3 : Nat) (s0 : Store)
    (h0 : f0.errorCount = some 0) (hfeeds : s0.feeds = [f0]) :
    ((getFeedHealthStats s).totalFeeds = s.feeds.length ∧
     (getFeedHealthStats s).feedsWithErrors =
        s.feeds.filter (fun f => 3 ≤ f.errorCount.getD 0) ∧
     (getFeedHealthStats s).failingFeeds =
        (s.feeds.filter (fun f => 3 ≤ f.errorCount.getD 0)).length ∧
     ∀ f ∈ s.feeds,
       (f ∈ (getFeedHealthStats s).feedsWithErrors ↔ 3 ≤ f.errorCount.getD 0)) ∧
    ((syncFeedRefresh f0 none now1 s0).1.feeds =
        [{ f0 with errorCount := some 1 }] ∧
     (syncFeedRefresh { f0 with errorCount := some 1 } none now2
        (syncFeedRefresh f0 none now1 s0).1).1.feeds =
        [{ f0 with errorCount := some 2 }] ∧
     (getFeedHealthStats (syncFeedRefresh { f0 with errorCount := some 1 } none now2
        (syncFeedRefresh f0 none now1 s0).1).1).failingFeeds = 0 ∧
     { f0 with errorCount := some 2 } ∉
       (getFeedHealthStats (syncFeedRefresh { f0 with errorCount := some 1 } none now2
          (syncFeedRefresh f0 none now1 s0).1).1).feedsWithErrors ∧
     (syncFeedRefresh { f0 with errorCount := some 2 } none now3
        (syncFeedRefresh { f0 with errorCount := some 1 } none now2
          (syncFeedRefresh f0 none now1 s0).1).1).1.feeds =
        [{ f0 with errorCount := some 3 }] ∧
     (getFeedHealthStats (syncFeedRefresh { f0 with errorCount := some 2 } none now3
        (syncFeedRefresh { f0 with errorCount := some 1 } none now2
          (syncFeedRefresh f0 none now1 s0).1).1).1).failingFeeds = 1 ∧
     { f0 with errorCount := some 3 } ∈
       (getFeedHealthStats (syncFeedRefresh { f0 with errorCount := some 2 } none now3
          (syncFeedRefresh { f0 with errorCount := some 1 } none now2
            (syncFeedRefresh f0 none now1 s0).1).1).1).feedsWithErrors) := by
  have hs1 : (syncFeedRefresh f0 none now1 s0).1.feeds =
      [{ f0 with errorCount := some 1 }] := by
    show (updateFeed s0 f0.id _).feeds = _
    rw [updateFeed_split s0 f0.id _ [] [] f0 (by simp [hfeeds]) rfl
      (by intro g hg; simp at hg)]
    simp [applyPatch, h0]
  have hs2 : (syncFeedRefresh { f0 with errorCount := some 1 } none now2
      (syncFeedRefresh f0 none now1 s0).1).1.feeds =
      [{ f0 with errorCount := some 2 }] := by
    show (updateFeed _ _ _).feeds = _
    rw [updateFeed_split _ _ _ [] [] { f0 with errorCount := some 1 }
      (by simp [hs1]) rfl (by intro g hg; simp at hg)]
    simp [applyPatch]
  have hs3 : (syncFeedRefresh { f0 with errorCount := some 2 } none now3
      (syncFeedRefresh { f0 with errorCount := some 1 } none now2
        (syncFeedRefresh f0 none now1 s0).1).1).1.feeds =
      [{ f0 with errorCount := some 3 }] := by
    show (updateFeed _ _ _).feeds = _
    rw [updateFeed_split _ _ _ [] [] { f0 with errorCount := some 2 }
      (by simp [hs2]) rfl (by intro g hg; simp at hg)]
    simp [applyPatch]
  refine ⟨⟨rfl, rfl, rfl, ?_⟩, hs1, hs2, ?_, ?_, hs3, ?_, ?_⟩
  · intro f hf
    simp [getFeedHealthStats, List.mem_filter, hf]
  · simp [getFeedHealthStats, hs2]
  · simp [getFeedHealthStats, hs2]
  · simp [getFeedHealthStats, hs3]
  · simp [getFeedHealthStats, hs3]

/-- C8 witness instantiation data. -/
theorem c8_health_threshold_witness :
    let f : Feed :=
      { id := 7, url := "https://a.example/feed".data, siteUrl := none,
        title := "A".data, description := none, favicon := none,
        categoryId := none, lastFetched := none, errorCount := some 0,
        isActive := true }
    let s0 : Store := { feeds := [f], articles := [], categories := [], nextId := 8 }
    (getFeedHealthStats (syncFeedRefresh { f with errorCount := some 1 } none 2
        (syncFeedRefresh f none 1 s0).1).1).failingFeeds = 0 ∧
    (getFeedHealthStats (syncFeedRefresh { f with errorCount := some 2 } none 3
        (syncFeedRefresh { f with errorCount := some 1 } none 2
          (syncFeedRefresh f none 1 s0).1).1).1).failingFeeds = 1 := by
  intro f s0
  have h := c8_health_threshold s0 f 1 2 3 s0 rfl rfl
  exact ⟨h.2.2.2.1, h.2.2.2.2.2.2.1⟩

theorem completeAt_true {T R : Type} {fails : T → Bool} {res : T → R} {i : Nat}
    {st st2 : ExecState T R} (h : completeAt fails res i st = (true, st2)) :
    st2 = st ∧ ∃ t ∈ st.inFlight, fails t = true := by
  rcases hg : st.inFlight[i % st.inFlight.length]? with _ | t
  · simp only [completeAt, hg] at h
    exact absurd (congrArg Prod.fst h) (by simp)
  · simp only [completeAt, hg] at h
    by_cases hf : fails t
    · rw [if_pos hf] at h
      have h2 := Prod.mk.injEq true st .. ▸ h
      refine ⟨((Prod.mk.injEq _ _ _ _).mp h).2.symm, t, ?_, hf⟩
      have := List.getElem?_mem hg
      simpa using this
    · rw [if_neg hf] at h
      exact absurd (congrArg Prod.fst h) (by simp)

theorem completeAt_false {T R : Type} {fails : T → Bool} {res : T → R} {i : Nat}
    {st st2 : ExecState T R} (hne : st.inFlight ≠ [])
    (h : completeAt fails res i st = (false, st2)) :
    st2.inFlight.length + 1 = st.inFlight.length ∧
    st2.results.length = st.results.length + 1 ∧
    st2.started = st.started ∧
    st2.maxInFlight = st.maxInFlight ∧
    (∀ x ∈ st2.inFlight, x ∈ st.inFlight) := by
  have hlen : 0 < st.inFlight.length := List.length_pos.mpr hne
  have hidx : i % st.inFlight.length < st.inFlight.length := Nat.mod_lt i hlen
  rcases hg : st.inFlight[i % st.inFlight.length]? with _ | t
  · exact absurd hg (by simp [List.getElem?_eq_none_iff]; omega)
  · simp only [completeAt, hg] at h
    by_cases hf : fails t
    · rw [if_pos hf] at h
      exact absurd (congrArg Prod.fst h) (by simp)
    · rw [if_neg hf] at h
      have hst2 := ((Prod.mk.injEq _ _ _ _).mp h).2
      subst hst2
      refine ⟨?_, by simp, rfl, rfl, ?_⟩
      · simp only [List.length_eraseIdx, hidx, if_pos]
        omega
      · intro x hx
        exact (List.eraseIdx_sublist _ _).mem hx

theorem completeAt_no_fail {T R : Type} {fails : T → Bool} {res : T → R}
    {i : Nat} {st : ExecState T R}
    (h : ∀ t ∈ st.inFlight, fails t = false) :
    (completeAt fails res i st).1 = false := by
  rcases hg : st.inFlight[i % st.inFlight.length]? with _ | t
  · simp [completeAt, hg]
  · have hf := h t (by have := List.getElem?_mem hg; simpa using this)
    simp [completeAt, hg, hf]

theorem runDrain_spec {T R : Type} (fails : T → Bool) (res : T → R)
    (sched : Nat → Nat) (fuel k : Nat) (st : ExecState T R)
    (hfuel : st.inFlight.length ≤ fuel) :
    (runDrain fails res sched fuel k st).maxInFlight = st.maxInFlight ∧
    (runDrain fails res sched fuel k st).started = st.started ∧
    (runDrain fails res sched fuel k st).notAdmitted = [] ∧
    ((runDrain fails res sched fuel k st).rejected = false →
      (runDrain fails res sched fuel k st).results.length =
        st.results.length + st.inFlight.length) ∧
    ((runDrain fails res sched fuel k st).rejected = true →
      ∃ t ∈ st.inFlight, fails t = true) ∧
    ((∀ t ∈ st.inFlight, fails t = false) →
      (runDrain fails res sched fuel k st).rejected = false) := by
  induction fuel generalizing k st with
  | zero =>
    have : st.inFlight = [] := List.length_eq_zero.mp (Nat.le_zero.mp hfuel)
    simp [runDrain, resolvedOutcome, this]
  | succ fuel ih =>
    by_cases hemp : st.inFlight.isEmpty
    · have : st.inFlight = [] := List.isEmpty_iff.mp hemp
      simp [runDrain, hemp, resolvedOutcome, this]
    · have hne : st.inFlight ≠ [] := by
        intro hc; rw [hc] at hemp; exact hemp rfl
      rcases hco : completeAt fails res (sched k) st with ⟨b, st2⟩
      cases b
      · have hl := completeAt_false hne hco
        have hrec := ih (k + 1) st2 (by omega)
        simp only [runDrain, hemp, Bool.false_eq_true, if_false, hco]
        refine ⟨by rw [hrec.1, hl.2.2.2.1], by rw [hrec.2.1, hl.2.2.1],
          hrec.2.2.1, ?_, ?_, ?_⟩
        · intro hrej
          rw [hrec.2.2.2.1 hrej, hl.2.1]
          omega
        · intro hrej
          obtain ⟨t, ht, hf⟩ := hrec.2.2.2.2.1 hrej
          exact ⟨t, hl.2.2.2.2 t ht, hf⟩
        · intro hall
          exact hrec.2.2.2.2.2 (fun t ht => hall t (hl.2.2.2.2 t ht))
      · obtain ⟨heq, hex⟩ := completeAt_true hco
        subst heq
        simp only [runDrain, hemp, if_false, hco, rejectedOutcome]
        refine ⟨rfl, rfl, rfl, by intro h; exact absurd h (by simp), ?_, ?_⟩
        · intro _
          exact hex
        · intro hall
          obtain ⟨t, ht, hf⟩ := hex
          rw [hall t ht] at hf
          exact absurd hf (by simp)

theorem runLoop_spec {T R : Type} (fails : T → Bool) (res : T → R)
    (limit : Nat) (sched : Nat → Nat) (pending : List T) (k : Nat)
    (st : ExecState T R)
    (hin : st.inFlight.length < limit)
    (hmax : st.maxInFlight ≤ limit)
    (hsub : ∀ x ∈ st.inFlight, x ∈ st.started) :
    (runLoop fails res limit sched pending k st).maxInFlight ≤ limit ∧
    (∃ taken rest, pending = taken ++ rest ∧
      (runLoop fails res limit sched pending k st).started = st.started ++ taken) ∧
    ((runLoop fails res limit sched pending k st).rejected = false →
      (runLoop fails res limit sched pending k st).started = st.started ++ pending ∧
      (runLoop fails res limit sched pending k st).notAdmitted = [] ∧
      (runLoop fails res limit sched pending k st).results.length =
        st.results.length + st.inFlight.length + pending.length) ∧
    ((runLoop fails res limit sched pending k st).rejected = true →
      ∃ x ∈ (runLoop fails res limit sched pending k st).started, fails x = true) ∧
    ((∀ x ∈ st.inFlight, fails x = false) → (∀ x ∈ pending, fails x = false) →
      (runLoop fails res limit sched pending k st).rejected = false) := by
  induction pending generalizing k st with
  | nil =>
    simp only [runLoop]
    have hd := runDrain_spec fails res sched st.inFlight.length k st le_rfl
    refine ⟨by rw [hd.1]; exact hmax, ⟨[], [], by simp, by simp [hd.2.1]⟩,
      ?_, ?_, ?_⟩
    · intro hres
      exact ⟨by simp [hd.2.1], hd.2.2.1, by
        have := hd.2.2.2.1 hres
        simpa using this⟩
    · intro hrej
      obtain ⟨x, hx, hf⟩ := hd.2.2.2.2.1 hrej
      exact ⟨x, hd.2.1 ▸ hsub x hx, hf⟩
    · intro hall _
      exact hd.2.2.2.2.2 hall
  | cons t rest ih =>
    simp only [runLoop]
    set fl := st.inFlight ++ [t] with hfl
    set st1 : ExecState T R :=
      { st with inFlight := fl, started := st.started ++ [t],
                maxInFlight := max st.maxInFlight fl.length } with hst1
    have hfl_len : fl.length = st.inFlight.length + 1 := by simp [hfl]
    have hfl_le : fl.length ≤ limit := by omega
    have hmax1 : st1.maxInFlight ≤ limit := by
      simp only [hst1, max_le_iff]
      exact ⟨hmax, hfl_le⟩
    have hsub1 : ∀ x ∈ st1.inFlight, x ∈ st1.started := by
      intro x hx
      simp only [hst1] at hx ⊢
      rcases List.mem_append.mp hx with h | h
      · exact List.mem_append_left _ (hsub x h)
      · exact List.mem_append_right _ h
    by_cases hw : limit ≤ fl.length
    · rw [if_pos hw]
      rcases hco : completeAt fails res (sched k) st1 with ⟨b, st2⟩
      cases b
      · have hcf := completeAt_false (by simp [hst1, hfl]) hco
        have hin2 : st2.inFlight.length < limit := by
          have := hcf.1
          simp only [hst1] at this
          omega
        have hmax2 : st2.maxInFlight ≤ limit := hcf.2.2.2.1 ▸ hmax1
        have hsub2 : ∀ x ∈ st2.inFlight, x ∈ st2.started := by
          intro x hx
          rw [hcf.2.2.1]
          exact hsub1 x (hcf.2.2.2.2 x hx)
        have hrec := ih (k + 1) st2 hin2 hmax2 hsub2
        refine ⟨hrec.1, ?_, ?_, ?_, ?_⟩
        · obtain ⟨taken, rest2, heq, hst⟩ := hrec.2.1
          refine ⟨t :: taken, rest2, by simp [heq], ?_⟩
          rw [hst, hcf.2.2.1]
          simp [hst1]
        · intro hres
          obtain ⟨ha, hb, hc⟩ := hrec.2.2.1 hres
          refine ⟨?_, hb, ?_⟩
          · rw [ha, hcf.2.2.1]
            simp [hst1]
          · rw [hc]
            have h1 := hcf.1
            have h2 := hcf.2.1
            simp only [hst1] at h1 h2 ⊢
            simp only [hfl_len] at h1
            simp only [List.length_cons]
            omega
        · exact hrec.2.2.2.1
        · intro hall1 hall2
          have hallfl : ∀ x ∈ st1.inFlight, fails x = false := by
            intro x hx
            simp only [hst1] at hx
            rcases List.mem_append.mp hx with h | h
            · exact hall1 x h
            · have : x = t := by simpa using h
              exact this ▸ hall2 t (List.mem_cons_self t rest)
          have hall2' : ∀ x ∈ st2.inFlight, fails x = false := by
            intro x hx
            exact hallfl x (hcf.2.2.2.2 x hx)
          exact hrec.2.2.2.2 hall2'
            (fun x hx => hall2 x (List.mem_cons_of_mem t hx))
      · obtain ⟨heq, hex⟩ := completeAt_true hco
        subst heq
        refine ⟨hmax1, ⟨[t], rest, rfl, by simp [rejectedOutcome, hst1]⟩,
          ?_, ?_, ?_⟩
        · intro hres
          exact absurd hres (by simp [rejectedOutcome])
        · intro _
          obtain ⟨x, hx, hf⟩ := hex
          exact ⟨x, by
            show x ∈ st1.started
            exact hsub1 x hx, hf⟩
        · intro hall1 hall2
          exfalso
          have hallfl : ∀ x ∈ st1.inFlight, fails x = false := by
            intro x hx
            simp only [hst1] at hx
            rcases List.mem_append.mp hx with h | h
            · exact hall1 x h
            · have : x = t := by simpa using h
              exact this ▸ hall2 t (List.mem_cons_self t rest)
          have := @completeAt_no_fail _ _ fails res (sched k) st1 hallfl
          rw [hco] at this
          exact absurd this (by simp)
    · rw [if_neg hw]
      have hin1 : st1.inFlight.length < limit := by
        simp only [hst1]
        omega
      have hrec := ih k st1 hin1 hmax1 hsub1
      refine ⟨hrec.1, ?_, ?_, ?_, ?_⟩
      · obtain ⟨taken, rest2, heq, hst⟩ := hrec.2.1
        refine ⟨t :: taken, rest2, by simp [heq], ?_⟩
        rw [hst]
        simp [hst1]
      · intro hres
        obtain ⟨ha, hb, hc⟩ := hrec.2.2.1 hres
        refine ⟨?_, hb, ?_⟩
        · rw [ha]
          simp [hst1]
        · rw [hc]
          simp only [hst1, hfl_len, List.length_cons, List.length_append]
          omega
      · exact hrec.2.2.2.1
      · intro hall1 hall2
        have hallfl : ∀ x ∈ st1.inFlight, fails x = false := by
          intro x hx
          simp only [hst1] at hx
          rcases List.mem_append.mp hx with h | h
          · exact hall1 x h
          · have : x = t := by simpa using h
            exact this ▸ hall2 t (List.mem_cons_self t rest)
        exact hrec.2.2.2.2 hallfl
          (fun x hx => hall2 x (List.mem_cons_of_mem t hx))

/-- C6: for every collection of `k` tasks, limit `N` with `1 ≤ N < k`,
failure behaviour, result values, and completion schedule: at no
instant during `mapConcurrency` are more than `N` operations
started-and-unresolved (the running maximum of the in-flight count is
at most `N`), and when the returned promise resolves every one of the
`k` tasks was started exactly once (the started list is the input list
itself, in admission order) and every task settled exactly once
(`results` holds `k` entries). -/
theorem c6_executor_bound {T R : Type} (items : List T) (limit : Nat)
    (fails : T → Bool) (res : T → R) (sched : Nat → Nat)
    (hlim : 1 ≤ limit) (hk : limit < items.length) :
    (mapConcurrency items limit fails res sched).maxInFlight ≤ limit ∧
    ((mapConcurrency items limit fails res sched).rejected = false →
      (mapConcurrency items limit fails res sched).started = items ∧
      (mapConcurrency items limit fails res sched).results.length = items.length ∧
      (mapConcurrency items limit fails res sched).notAdmitted = []) := by
  have h := runLoop_spec fails res limit sched items 0
    { inFlight := [], started := [], results := [], maxInFlight := 0 }
    (by simpa using hlim) (by simp) (by intro x hx; simp at hx)
  simp only [mapConcurrency]
  refine ⟨h.1, ?_⟩
  intro hres
  obtain ⟨ha, hb, hc⟩ := h.2.2.1 hres
  exact ⟨by simpa using ha, by simpa using hc, hb⟩

/-- C6 witness instantiation data. -/
theorem c6_executor_bound_witness :
    (mapConcurrency [0, 1, 2, 3] 2 (fun _ => false) (fun n => n)
        (fun _ => 0)).maxInFlight ≤ 2 ∧
    ((mapConcurrency [0, 1, 2, 3] 2 (fun _ => false) (fun n => n)
        (fun _ => 0)).rejected = false →
      (mapConcurrency [0, 1, 2, 3] 2 (fun _ => false) (fun n => n)
        (fun _ => 0)).started = [0, 1, 2, 3] ∧
      (mapConcurrency [0, 1, 2, 3] 2 (fun _ => false) (fun n => n)
        (fun _ => 0)).results.length = [0, 1, 2, 3].length ∧
      (mapConcurrency [0, 1, 2, 3] 2 (fun _ => false) (fun n => n)
        (fun _ => 0)).notAdmitted = []) :=
  c6_executor_bound [0, 1, 2, 3] 2 (fun _ => false) (fun n => n) (fun _ => 0)
    (by decide) (by decide)

/-- C1 (amended: the executor is fail-fast, not wait-for-all): if no
item's operation rejects — as at both call sites, whose per-item
functions catch all their errors and record failures as data — the
executor admits and completes every item and resolves only after all
have settled; but when an operation rejects, the executor's returned
promise rejects (some started operation failed) and the items not yet
admitted at that await point are never started (the started list is a
prefix of the input). -/
theorem c1_executor_failfast {T R : Type} (items : List T) (limit : Nat)
    (fails : T → Bool) (res : T → R) (sched : Nat → Nat) (hlim : 1 ≤ limit) :
    ((∀ t ∈ items, fails t = false) →
      (mapConcurrency items limit fails res sched).rejected = false ∧
      (mapConcurrency items limit fails res sched).started = items ∧
      (mapConcurrency items limit fails res sched).notAdmitted = [] ∧
      (mapConcurrency items limit fails res sched).results.length =
        items.length) ∧
    ((mapConcurrency items limit fails res sched).rejected = true →
      ∃ t ∈ (mapConcurrency items limit fails res sched).started,
        fails t = true) ∧
    (∃ rest, items = (mapConcurrency items limit fails res sched).started ++ rest) := by
  have h := runLoop_spec fails res limit sched items 0
    { inFlight := [], started := [], results := [], maxInFlight := 0 }
    (by simpa using hlim) (by simp) (by intro x hx; simp at hx)
  simp only [mapConcurrency]
  refine ⟨?_, h.2.2.2.1, ?_⟩
  · intro hall
    have hres := h.2.2.2.2 (by intro x hx; simp at hx) hall
    obtain ⟨ha, hb, hc⟩ := h.2.2.1 hres
    exact ⟨hres, by simpa using ha, hb, by simpa using hc⟩
  · obtain ⟨taken, rest, heq, hst⟩ := h.2.1
    exact ⟨rest, by rw [hst]; simpa using heq⟩

/-- C1 counterexample: with three items, limit 1, and the first item's
operation rejecting, `mapConcurrency`'s promise rejects and the
remaining two items are never admitted — refuting "admits and completes
the operations for all remaining items" and "resolves only after every
item's operation has completed". -/
theorem c1_counterexample :
    (mapConcurrency [0, 1, 2] 1 (fun t => t == 0) (fun t => t)
        (fun _ => 0)).rejected = true ∧
    (mapConcurrency [0, 1, 2] 1 (fun t => t == 0) (fun t => t)
        (fun _ => 0)).started = [0] ∧
    (mapConcurrency [0, 1, 2] 1 (fun t => t == 0) (fun t => t)
        (fun _ => 0)).notAdmitted = [1, 2] := by
  refine ⟨rfl, rfl, rfl⟩

/-- C1 witness instantiation data. -/
theorem c1_executor_failfast_witness :
    ((∀ t ∈ [5, 6], (fun _ => false : Nat → Bool) t = false) →
      (mapConcurrency [5, 6] 1 (fun _ => false) (fun n => n)
        (fun _ => 0)).rejected = false ∧
      (mapConcurrency [5, 6] 1 (fun _ => false) (fun n => n)
        (fun _ => 0)).started = [5, 6] ∧
      (mapConcurrency [5, 6] 1 (fun _ => false) (fun n => n)
        (fun _ => 0)).notAdmitted = [] ∧
      (mapConcurrency [5, 6] 1 (fun _ => false) (fun n => n)
        (fun _ => 0)).results.length = [5, 6].length) ∧
    ((mapConcurrency [5, 6] 1 (fun _ => false) (fun n => n)
        (fun _ => 0)).rejected = true →
      ∃ t ∈ (mapConcurrency [5, 6] 1 (fun _ => false) (fun n => n)
        (fun _ => 0)).started, (fun _ => false : Nat → Bool) t = true) ∧
    (∃ rest, [5, 6] = (mapConcurrency [5, 6] 1 (fun _ => false) (fun n => n)
        (fun _ => 0)).started ++ rest) :=
  c1_executor_failfast [5, 6] 1 (fun _ => false) (fun n => n) (fun _ => 0)
    (by decide)

/-- C2 (code bug): on the spec's own example document
`<link type="application/rss+xml" href="/feed.xml" title="Blog">` at
`https://example.com/page`, discovery yields exactly one candidate with
the right resolved URL and type in either attribute order — but its
title is `"RSS Feed"`, not the declared `"Blog"`: the optional title
capture group of both patterns sits after a greedy `[^>]*`, which
always consumes the title attribute, so `match[3]` is always undefined
and the `|| "RSS Feed"` fallback always fires. -/
theorem c2_discovery_title_bug :
    (discoverScan
        "<link type=\"application/rss+xml\" href=\"/feed.xml\" title=\"Blog\">".data
        "https://example.com/page".data =
      [{ url := "https://example.com/feed.xml".data, title := "RSS Feed".data,
         type := "RSS".data }]) ∧
    (discoverScan
        "<link href=\"/feed.xml\" type=\"application/rss+xml\" title=\"Blog\">".data
        "https://example.com/page".data =
      [{ url := "https://example.com/feed.xml".data, title := "RSS Feed".data,
         type := "RSS".data }]) ∧
    "RSS Feed".data ≠ "Blog".data := by
  refine ⟨by decide, by decide, by decide⟩

/-- C7 counterexample: exporting a store of two feeds in one named
category and importing the document into an empty store does *not*
always reproduce the feeds' URLs, even though both URLs parse
successfully (the parse oracle here accepts every URL): a URL
containing `&` is exported XML-escaped and the import never unescapes
entities, so the reproduced URL is the `&amp;` form instead of the
original. -/
theorem c7_counterexample :
    c7cxOut.2.imported = 2 ∧ c7cxOut.2.skipped = 0 ∧
    c7cxOut.1.feeds.map Feed.url =
      ["https://a.example/?x=1&amp;y=2".data, "https://b.example/feed".data] ∧
    "https://a.example/?x=1&amp;y=2".data ≠ "https://a.example/?x=1&y=2".data ∧
    c7cxStore.feeds.map Feed.url =
      ["https://a.example/?x=1&y=2".data, "https://b.example/feed".data] := by
  refine ⟨by decide, by decide, by decide, by decide, by decide⟩

theorem ciEq_nonletter {x : Char} (h1 : ¬(65 ≤ x.toNat ∧ x.toNat ≤ 90))
    (h2 : ¬(97 ≤ x.toNat ∧ x.toNat ≤ 122)) (d : Char) : ciEq x d = (x == d) := by
  simp only [ciEq]
  rw [Bool.eq_iff_iff]
  simp only [Bool.or_eq_true, Bool.and_eq_true, beq_iff_eq, decide_eq_true_eq]
  constructor
  · rintro ((h | ⟨⟨a, b⟩, c⟩) | ⟨⟨a, b⟩, c⟩)
    · exact h
    · exact absurd ⟨a, b⟩ h1
    · exact absurd ⟨by omega, by omega⟩ h2
  · exact fun h => Or.inl (Or.inl h)

theorem ciEq_refl (a : Char) : ciEq a a = true := by
  simp [ciEq]

theorem ciEq_eq_sign (c : Char) : ciEq '=' c = ('=' == c) :=
  ciEq_nonletter (by decide) (by decide) c

theorem ciEq_lt_sign (c : Char) : ciEq '<' c = ('<' == c) :=
  ciEq_nonletter (by decide) (by decide) c

theorem valSafe_spec {c : Char} (h : valSafe c = true) :
    c ≠ '&' ∧ c ≠ '<' ∧ c ≠ '>' ∧ c ≠ '"' ∧ c ≠ '\'' ∧ c ≠ '=' := by
  simp only [valSafe, Bool.not_eq_eq_eq_not, Bool.not_true, Bool.or_eq_false_iff,
    beq_eq_false_iff_ne] at h
  exact ⟨h.1.1.1.1.1, h.1.1.1.1.2, h.1.1.1.2, h.1.1.2, h.1.2, h.2⟩

theorem replaceChar_id {c : Char} {r l : List Char} (h : ∀ x ∈ l, x ≠ c) :
    replaceChar c r l = l := by
  induction l with
  | nil => rfl
  | cons x t ih =>
    have hx : (x == c) = false := by
      simp [h x (List.mem_cons_self x t)]
    simp only [replaceChar, hx, Bool.false_eq_true, if_false]
    rw [ih (fun y hy => h y (List.mem_cons_of_mem x hy))]

theorem escapeXml_id {l : List Char} (h : ∀ c ∈ l, valSafe c = true) :
    escapeXml l = l := by
  unfold escapeXml
  rw [replaceChar_id (fun x hx => (valSafe_spec (h x hx)).1),
    replaceChar_id (fun x hx => (valSafe_spec (h x hx)).2.1),
    replaceChar_id (fun x hx => (valSafe_spec (h x hx)).2.2.1),
    replaceChar_id (fun x hx => (valSafe_spec (h x hx)).2.2.2.1),
    replaceChar_id (fun x hx => (valSafe_spec (h x hx)).2.2.2.2.1)]

theorem startsLitCI_false_of_refutes {pat l : List Char}
    (h : refutesAtCI pat l = true) (s : List Char) :
    startsLitCI pat (l ++ s) = false := by
  induction pat generalizing l with
  | nil => simp [refutesAtCI] at h
  | cons p ps ih =>
    cases l with
    | nil => simp [refutesAtCI] at h
    | cons c cs =>
      simp only [refutesAtCI, Bool.or_eq_true, Bool.not_eq_eq_eq_not,
        Bool.not_true] at h
      simp only [List.cons_append, startsLitCI, Bool.and_eq_false_iff]
      rcases h with h | h
      · exact Or.inl h
      · exact Or.inr (ih h)

theorem startsLitCI_self (nm l : List Char) :
    startsLitCI nm (nm ++ l) = true := by
  induction nm with
  | nil => rfl
  | cons p ps ih => simp [startsLitCI, ciEq_refl, ih]

theorem startsLitCI_extend {pat K : List Char} (h : startsLitCI pat K = true)
    (s : List Char) : startsLitCI pat (K ++ s) = true := by
  induction pat generalizing K with
  | nil => rfl
  | cons p ps ih =>
    cases K with
    | nil => simp [startsLitCI] at h
    | cons c cs =>
      simp only [startsLitCI, Bool.and_eq_true] at h
      simp only [List.cons_append, startsLitCI, Bool.and_eq_true]
      exact ⟨h.1, ih h.2⟩

theorem startsLitCI_length_le {pat l : List Char}
    (h : startsLitCI pat l = true) : pat.length ≤ l.length := by
  induction pat generalizing l with
  | nil => simp
  | cons p ps ih =>
    cases l with
    | nil => simp [startsLitCI] at h
    | cons c cs =>
      simp only [startsLitCI, Bool.and_eq_true] at h
      have := ih h.2
      simp only [List.length_cons]
      omega

/-! ### C7 general lemmas: the outline-tag scanner -/
theorem takeThroughGt_length {acc x : List Char} {b rest : List Char}
    (h : takeThroughGt acc x = some (b, rest)) : rest.length < x.length := by
  induction x generalizing acc with
  | nil => simp [takeThroughGt] at h
  | cons c cs ih =>
    simp only [takeThroughGt] at h
    by_cases hc : (c == '>') = true
    · rw [if_pos hc] at h
      have h2 := Option.some.inj h
      have hr : rest = cs := ((Prod.mk.injEq _ _ _ _).mp h2).2.symm
      subst hr
      simp
    · rw [if_neg hc] at h
      have := ih h
      simp only [List.length_cons]
      omega

theorem takeThroughGt_run (b : List Char) (hgt : '>' ∉ b) :
    ∀ (acc s : List Char),
      takeThroughGt acc (b ++ '>' :: s) = some (acc ++ b ++ ['>'], s) := by
  induction b with
  | nil =>
    intro acc s
    simp [takeThroughGt]
  | cons c t ih =>
    intro acc s
    have hc : (c == '>') = false := by
      have : c ≠ '>' := fun hcon => hgt (hcon ▸ List.mem_cons_self c t)
      simp [this]
    simp only [List.cons_append, takeThroughGt, hc, Bool.false_eq_true, if_false]
    have := ih (fun hx => hgt (List.mem_cons_of_mem c hx)) (acc ++ [c]) s
    simpa using this

theorem findOutlineTags_fuel (n : Nat) :
    ∀ (l : List Char) (f1 f2 : Nat), l.length ≤ n → l.length < f1 →
      l.length < f2 → findOutlineTags f1 l = findOutlineTags f2 l := by
  induction n with
  | zero =>
    intro l f1 f2 hn h1 h2
    have hl : l = [] := List.length_eq_zero.mp (Nat.le_zero.mp hn)
    subst hl
    cases f1 with
    | zero => omega
    | succ g1 =>
      cases f2 with
      | zero => omega
      | succ g2 =>
        have hs : startsLitCI "<outline".data ([] : List Char) = false := by decide
        simp [findOutlineTags, hs]
  | succ n ih =>
    intro l f1 f2 hn h1 h2
    cases f1 with
    | zero => omega
    | succ g1 =>
      cases f2 with
      | zero => omega
      | succ g2 =>
        simp only [findOutlineTags]
        by_cases hs : startsLitCI "<outline".data l = true
        · rw [if_pos hs, if_pos hs]
          rcases ht : takeThroughGt [] (l.drop 8) with _ | ⟨b, rest⟩
          · cases l with
            | nil => rfl
            | cons c cs =>
              have hlen : cs.length ≤ n := by
                simp only [List.length_cons] at hn
                omega
              simp only [List.length_cons] at h1 h2
              exact ih cs g1 g2 hlen (by omega) (by omega)
          · have hrl := takeThroughGt_length ht
            have hdl : (l.drop 8).length ≤ l.length := by
              rw [List.length_drop]
              omega
            simp only [ht]
            rw [ih rest g1 g2 (by omega) (by omega) (by omega)]
        · rw [if_neg hs, if_neg hs]
          cases l with
          | nil => rfl
          | cons c cs =>
            have hlen : cs.length ≤ n := by
              simp only [List.length_cons] at hn
              omega
            simp only [List.length_cons] at h1 h2
            exact ih cs g1 g2 hlen (by omega) (by omega)

theorem outlineTags_cons_skip {c : Char} {l : List Char}
    (h : startsLitCI "<outline".data (c :: l) = false) :
    outlineTags (c :: l) = outlineTags l := by
  have step : findOutlineTags (l.length + 1 + 1) (c :: l) =
      (if startsLitCI "<outline".data (c :: l) = true then
        match takeThroughGt [] ((c :: l).drop 8) with
        | some (body, rest) =>
          ((c :: l).take 8 ++ body) :: findOutlineTags (l.length + 1) rest
        | none => findOutlineTags (l.length + 1) l
      else findOutlineTags (l.length + 1) l) := rfl
  show findOutlineTags ((c :: l).length + 1) (c :: l) = _
  simp only [List.length_cons]
  rw [step, h]
  simp only [Bool.false_eq_true, if_false]
  rfl

theorem outlineTags_skip_chunk (K s : List Char)
    (h : chunkRefutes "<outline".data K = true) :
    outlineTags (K ++ s) = outlineTags s := by
  induction K with
  | nil => rfl
  | cons c t ih =>
    simp only [chunkRefutes, Bool.and_eq_true] at h
    have hs : startsLitCI "<outline".data (c :: (t ++ s)) = false := by
      have := startsLitCI_false_of_refutes h.1 s
      simpa using this
    rw [List.cons_append, outlineTags_cons_skip hs, ih h.2]

theorem outlineTags_skip_safe (v s : List Char) (h : ∀ c ∈ v, c ≠ '<') :
    outlineTags (v ++ s) = outlineTags s := by
  induction v with
  | nil => rfl
  | cons c t ih =>
    have hpat : "<outline".data = '<' :: "outline".data := rfl
    have hc : startsLitCI "<outline".data (c :: (t ++ s)) = false := by
      rw [hpat]
      simp only [startsLitCI, ciEq_lt_sign]
      have : ('<' == c) = false := by
        have := h c (List.mem_cons_self c t)
        simp [Ne.symm this]
      rw [this]
      rfl
    rw [List.cons_append, outlineTags_cons_skip hc,
      ih (fun x hx => h x (List.mem_cons_of_mem c hx))]

theorem outlineTags_match (body s : List Char)
    (hpre : startsLitCI "<outline".data body = true)
    (hgt : '>' ∉ body) :
    outlineTags ((body ++ ['>']) ++ s) = (body ++ ['>']) :: outlineTags s := by
  have hlen8 : 8 ≤ body.length := by
    have := startsLitCI_length_le hpre
    simpa using this
  have hassoc : (body ++ ['>']) ++ s = body ++ ('>' :: s) := by simp
  have hstart : startsLitCI "<outline".data ((body ++ ['>']) ++ s) = true := by
    rw [hassoc]
    exact startsLitCI_extend hpre ('>' :: s)
  show findOutlineTags (((body ++ ['>']) ++ s).length + 1) _ = _
  simp only [findOutlineTags, hstart, if_true]
  have hdrop : ((body ++ ['>']) ++ s).drop 8 = body.drop 8 ++ ('>' :: s) := by
    rw [hassoc, List.drop_append_of_le_length hlen8]
  have hmemdrop : '>' ∉ body.drop 8 :=
    fun hx => hgt (List.drop_subset 8 body hx)
  rw [hdrop, takeThroughGt_run (body.drop 8) hmemdrop [] s]
  have htake : ((body ++ ['>']) ++ s).take 8 = body.take 8 := by
    rw [hassoc, List.take_append_of_le_length hlen8]
  simp only [htake, List.nil_append]
  have hhead : body.take 8 ++ (body.drop 8 ++ ['>']) = body ++ ['>'] := by
    rw [← List.append_assoc, List.take_append_drop]
  rw [hhead]
  have hfuel : findOutlineTags (((body ++ ['>']) ++ s).length) s =
      findOutlineTags (s.length + 1) s := by
    apply findOutlineTags_fuel s.length s _ _ le_rfl
    · simp only [List.length_append, List.length_cons]
      omega
    · omega
  rw [hfuel]
  rfl

/-! ### C7 general lemmas: attribute extraction -/
theorem matchAttrAt_none_of_false {name l : List Char}
    (h : startsLitCI name l = false) : matchAttrAt name l = none := by
  simp [matchAttrAt, h]

theorem matchAttr_cons_skip {name : List Char} {c : Char} {l : List Char}
    (h : matchAttrAt name (c :: l) = none) :
    matchAttr name (c :: l) = matchAttr name l := by
  simp [matchAttr, h]

theorem matchAttr_skip_chunk (name K s : List Char)
    (h : chunkRefutes name K = true) :
    matchAttr name (K ++ s) = matchAttr name s := by
  induction K with
  | nil => rfl
  | cons c t ih =>
    simp only [chunkRefutes, Bool.and_eq_true] at h
    have hs : startsLitCI name (c :: (t ++ s)) = false := by
      simpa using startsLitCI_false_of_refutes h.1 s
    rw [List.cons_append, matchAttr_cons_skip (matchAttrAt_none_of_false hs),
      ih h.2]

theorem startsLitCI_safe_false :
    ∀ (v nm s : List Char), (∀ p ∈ nm, ciEq p '"' = false) →
      (∃ p ∈ nm, ∀ c, valSafe c = true → ciEq p c = false) →
      (∀ c ∈ v, valSafe c = true) →
      startsLitCI nm (v ++ '"' :: s) = false := by
  intro v
  induction v with
  | nil =>
    intro nm s hq hw _
    obtain ⟨p, hp, _⟩ := hw
    cases nm with
    | nil => simp at hp
    | cons p0 ps =>
      simp only [List.nil_append, startsLitCI]
      rw [hq p0 (List.mem_cons_self p0 ps)]
      rfl
  | cons c t ih =>
    intro nm s hq hw hv
    cases nm with
    | nil =>
      obtain ⟨p, hp, _⟩ := hw
      simp at hp
    | cons p0 ps =>
      simp only [List.cons_append, startsLitCI]
      by_cases hpc : ciEq p0 c = true
      · obtain ⟨p, hp, hpf⟩ := hw
        have hwit2 : ∃ p2 ∈ ps, ∀ c2, valSafe c2 = true → ciEq p2 c2 = false := by
          rcases List.mem_cons.mp hp with he | hm
          · exfalso
            subst he
            have hz := hpf c (hv c (List.mem_cons_self c t))
            rw [hz] at hpc
            exact absurd hpc (by simp)
          · exact ⟨p, hm, hpf⟩
        rw [hpc, Bool.true_and]
        exact ih ps s (fun p2 h2 => hq p2 (List.mem_cons_of_mem p0 h2)) hwit2
          (fun c2 h2 => hv c2 (List.mem_cons_of_mem c h2))
      · rw [Bool.eq_false_iff.mpr hpc]
        rfl

theorem matchAttr_skip_value (nm v s : List Char)
    (hq : ∀ p ∈ nm, ciEq p '"' = false)
    (hw : ∃ p ∈ nm, ∀ c, valSafe c = true → ciEq p c = false)
    (hv : ∀ c ∈ v, valSafe c = true) :
    matchAttr nm (v ++ '"' :: s) = matchAttr nm s := by
  induction v with
  | nil =>
    have h0 : startsLitCI nm ('"' :: s) = false := by
      have := startsLitCI_safe_false [] nm s hq hw (by intro c hc; simp at hc)
      simpa using this
    rw [List.nil_append, matchAttr_cons_skip (matchAttrAt_none_of_false h0)]
  | cons c t ih =>
    have h0 : startsLitCI nm (c :: (t ++ '"' :: s)) = false := by
      have := startsLitCI_safe_false (c :: t) nm s hq hw hv
      simpa using this
    rw [List.cons_append, matchAttr_cons_skip (matchAttrAt_none_of_false h0),
      ih (fun c2 h2 => hv c2 (List.mem_cons_of_mem c h2))]

theorem takeWhile_quote_split (cap s : List Char)
    (hsafe : ∀ c ∈ cap, c ≠ '"' ∧ c ≠ '\'') :
    (cap ++ '"' :: s).takeWhile (fun c => c ≠ '"' && c ≠ '\'') = cap := by
  induction cap with
  | nil => simp
  | cons c t ih =>
    have hc := hsafe c (List.mem_cons_self c t)
    simp only [List.cons_append, List.takeWhile_cons]
    rw [if_pos (by simp [hc.1, hc.2])]
    rw [ih (fun c2 h2 => hsafe c2 (List.mem_cons_of_mem c h2))]

theorem matchAttrAt_hit (p : Char) (ps cap s : List Char) (hne : cap ≠ [])
    (hsafe : ∀ c ∈ cap, c ≠ '"' ∧ c ≠ '\'') :
    matchAttrAt (p :: ps) ((p :: ps) ++ '"' :: (cap ++ '"' :: s)) = some cap := by
  unfold matchAttrAt
  rw [startsLitCI_self, if_pos rfl, List.drop_left]
  simp only []
  rw [if_pos (by simp)]
  rw [takeWhile_quote_split cap s hsafe, List.drop_left]
  simp [List.isEmpty_iff, hne]

theorem matchAttr_hit (p : Char) (ps cap s : List Char) (hne : cap ≠ [])
    (hsafe : ∀ c ∈ cap, c ≠ '"' ∧ c ≠ '\'') :
    matchAttr (p :: ps) ((p :: ps) ++ '"' :: (cap ++ '"' :: s)) = some cap := by
  have hat := matchAttrAt_hit p ps cap s hne hsafe
  rcases hl : (p :: ps) ++ '"' :: (cap ++ '"' :: s) with _ | ⟨c0, rest0⟩
  · simp at hl
  · rw [← hl] at *
    have hat2 : matchAttrAt (p :: ps) (p :: (ps ++ '"' :: (cap ++ '"' :: s))) =
        some cap := by simpa using hat
    simp only [matchAttr, List.append_eq, hat2]

theorem categoryOutline_eq (cat : Category) (fs : List Feed)
    (hN : ∀ c ∈ cat.name, valSafe c = true) :
    categoryOutline cat fs =
      "\n    ".data ++ (catTagBody cat.name ++ ['>']) ++
      fs.foldl (fun acc f => acc ++ feedOutline "\n      ".data f) [] ++
      "\n    </outline>".data := by
  unfold categoryOutline catTagBody
  rw [escapeXml_id hN]
  have h1 : ("\n    <outline text=\"".data : List Char) =
      "\n    ".data ++ "<outline text=\"".data := rfl
  have h2 : ("\" title=\"".data : List Char) = "\"".data ++ " title=\"".data := rfl
  have h3 : ("\">".data : List Char) = "\"".data ++ ['>'] := rfl
  rw [h1, h3]
  simp [List.append_assoc, h2]

theorem feedOutline_eq (ind : List Char) (f : Feed)
    (hT : ∀ c ∈ f.title, valSafe c = true)
    (hU : ∀ c ∈ f.url, valSafe c = true)
    (hS : ∀ su, truthy f.siteUrl = some su → ∀ c ∈ su, valSafe c = true) :
    feedOutline ind f = ind ++ (feedTagBody f ++ ['>']) := by
  unfold feedOutline feedTagBody
  have h1 : (" />".data : List Char) = " /".data ++ ['>'] := rfl
  rw [escapeXml_id hT, escapeXml_id hU, h1]
  rcases hsu : truthy f.siteUrl with _ | su
  · simp [List.append_assoc]
  · dsimp only
    rw [escapeXml_id (hS su hsu)]
    simp [List.append_assoc]

theorem catTagBody_startsLit (name : List Char) :
    startsLitCI "<outline".data (catTagBody name) = true := by
  have : catTagBody name =
      "<outline".data ++ (" text=\"".data ++ name ++ "\" title=\"".data ++
        name ++ "\"".data) := by
    unfold catTagBody
    have h1 : ("<outline text=\"".data : List Char) =
        "<outline".data ++ " text=\"".data := rfl
    rw [h1]
    simp [List.append_assoc]
  rw [this]
  exact startsLitCI_self _ _

theorem feedTagBody_startsLit (f : Feed) :
    startsLitCI "<outline".data (feedTagBody f) = true := by
  have : feedTagBody f =
      "<outline".data ++ (" type=\"rss\" text=\"".data ++ f.title ++
        "\" title=\"".data ++ f.title ++ "\" xmlUrl=\"".data ++ f.url ++
        "\"".data ++
        (match truthy f.siteUrl with
         | some su => " htmlUrl=\"".data ++ su ++ "\"".data
         | none => []) ++ " /".data) := by
    unfold feedTagBody
    have h1 : ("<outline type=\"rss\" text=\"".data : List Char) =
        "<outline".data ++ " type=\"rss\" text=\"".data := rfl
    rw [h1]
    simp [List.append_assoc]
  rw [this]
  exact startsLitCI_self _ _

theorem catTagBody_no_gt (name : List Char)
    (hN : ∀ c ∈ name, valSafe c = true) : '>' ∉ catTagBody name := by
  intro hmem
  unfold catTagBody at hmem
  simp only [List.mem_append] at hmem
  rcases hmem with ((((h | h) | h) | h) | h)
  · exact absurd h (by decide)
  · exact absurd rfl (valSafe_spec (hN _ h)).2.2.1
  · exact absurd h (by decide)
  · exact absurd rfl (valSafe_spec (hN _ h)).2.2.1
  · exact absurd h (by decide)

theorem feedTagBody_no_gt (f : Feed)
    (hT : ∀ c ∈ f.title, valSafe c = true)
    (hU : ∀ c ∈ f.url, valSafe c = true)
    (hS : ∀ su, truthy f.siteUrl = some su → ∀ c ∈ su, valSafe c = true) :
    '>' ∉ feedTagBody f := by
  intro hmem
  unfold feedTagBody at hmem
  simp only [List.mem_append] at hmem
  rcases hmem with ((((((((h | h) | h) | h) | h) | h) | h) | h) | h)
  · exact absurd h (by decide)
  · exact absurd rfl (valSafe_spec (hT _ h)).2.2.1
  · exact absurd h (by decide)
  · exact absurd rfl (valSafe_spec (hT _ h)).2.2.1
  · exact absurd h (by decide)
  · exact absurd rfl (valSafe_spec (hU _ h)).2.2.1
  · exact absurd h (by decide)
  · rcases hsu : truthy f.siteUrl with _ | su
    · rw [hsu] at h
      simp at h
    · rw [hsu] at h
      simp only [List.mem_append] at h
      rcases h with (h | h) | h
      · exact absurd h (by decide)
      · exact absurd rfl (valSafe_spec (hS su hsu _ h)).2.2.1
      · exact absurd h (by decide)
  · exact absurd h (by decide)

theorem name_hw {nm : List Char} (h : '=' ∈ nm) :
    ∃ p ∈ nm, ∀ c, valSafe c = true → ciEq p c = false := by
  refine ⟨'=', h, ?_⟩
  intro c hc
  rw [ciEq_eq_sign]
  have := (valSafe_spec hc).2.2.2.2.2
  simp [Ne.symm this]

theorem strSafe_quotes {v : List Char} (h : ∀ c ∈ v, valSafe c = true) :
    ∀ c ∈ v, c ≠ '"' ∧ c ≠ '\'' :=
  fun c hc => ⟨(valSafe_spec (h c hc)).2.2.2.1,
    (valSafe_spec (h c hc)).2.2.2.2.1⟩

theorem catTag_attrs (name : List Char) (h : strSafe name) :
    matchAttr "xmlUrl=".data (catTagBody name ++ ['>']) = none ∧
    matchAttr "type=".data (catTagBody name ++ ['>']) = none ∧
    matchAttr "text=".data (catTagBody name ++ ['>']) = some name := by
  have hsh1 : catTagBody name ++ ['>'] =
      "<outline text=\"".data ++
        (name ++ '"' :: (" title=\"".data ++ (name ++ '"' :: ['>']))) := by
    unfold catTagBody
    have h2 : ("\" title=\"".data : List Char) = '"' :: " title=\"".data := rfl
    have h3 : ("\"".data : List Char) = ['"'] := rfl
    rw [h2, h3]
    simp [List.append_assoc]
  have hsh2 : catTagBody name ++ ['>'] =
      "<outline ".data ++
        ("text=".data ++ '"' ::
          (name ++ '"' :: (" title=\"".data ++ (name ++ '"' :: ['>'])))) := by
    rw [hsh1]
    have h4 : ("<outline text=\"".data : List Char) =
        "<outline ".data ++ ("text=".data ++ ['"']) := rfl
    rw [h4]
    simp [List.append_assoc]
  refine ⟨?_, ?_, ?_⟩
  · rw [hsh1,
      matchAttr_skip_chunk "xmlUrl=".data "<outline text=\"".data _ (by decide),
      matchAttr_skip_value "xmlUrl=".data name _ (by decide)
        (name_hw (by decide)) h.2,
      matchAttr_skip_chunk "xmlUrl=".data " title=\"".data _ (by decide),
      matchAttr_skip_value "xmlUrl=".data name _ (by decide)
        (name_hw (by decide)) h.2]
    decide
  · rw [hsh1,
      matchAttr_skip_chunk "type=".data "<outline text=\"".data _ (by decide),
      matchAttr_skip_value "type=".data name _ (by decide)
        (name_hw (by decide)) h.2,
      matchAttr_skip_chunk "type=".data " title=\"".data _ (by decide),
      matchAttr_skip_value "type=".data name _ (by decide)
        (name_hw (by decide)) h.2]
    decide
  · rw [hsh2,
      matchAttr_skip_chunk "text=".data "<outline ".data _ (by decide)]
    have hx : ("text=".data : List Char) = 't' :: "ext=".data := rfl
    rw [hx]
    exact matchAttr_hit 't' "ext=".data name _ h.1 (strSafe_quotes h.2)

theorem feedTag_attrs (f : Feed) (hT : strSafe f.title) (hU : strSafe f.url) :
    matchAttr "xmlUrl=".data (feedTagBody f ++ ['>']) = some f.url ∧
    matchAttr "title=".data (feedTagBody f ++ ['>']) = some f.title := by
  have h2 : ("\" title=\"".data : List Char) = '"' :: " title=\"".data := rfl
  have h3 : ("\"".data : List Char) = ['"'] := rfl
  have h5 : ("\" xmlUrl=\"".data : List Char) =
      '"' :: (" ".data ++ ("xmlUrl=".data ++ ['"'])) := rfl
  have h6 : (" title=\"".data : List Char) =
      " ".data ++ ("title=".data ++ ['"']) := rfl
  have hsh1 : feedTagBody f ++ ['>'] =
      "<outline type=\"rss\" text=\"".data ++
        (f.title ++ '"' :: (" title=\"".data ++
          (f.title ++ '"' :: (" ".data ++ ("xmlUrl=".data ++ '"' ::
            (f.url ++ '"' ::
              ((match truthy f.siteUrl with
                | some su => " htmlUrl=\"".data ++ su ++ "\"".data
                | none => []) ++ " /".data ++ ['>']))))))) := by
    unfold feedTagBody
    rw [h2, h5, h3]
    simp [List.append_assoc]
  have hsh2 : feedTagBody f ++ ['>'] =
      "<outline type=\"rss\" text=\"".data ++
        (f.title ++ '"' :: (" ".data ++ ("title=".data ++ '"' ::
          (f.title ++ '"' ::
            (" xmlUrl=\"".data ++ f.url ++ "\"".data ++
              (match truthy f.siteUrl with
               | some su => " htmlUrl=\"".data ++ su ++ "\"".data
               | none => []) ++ " /".data ++ ['>']))))) := by
    unfold feedTagBody
    rw [h2, h6]
    simp [List.append_assoc]
  constructor
  · rw [hsh1,
      matchAttr_skip_chunk "xmlUrl=".data "<outline type=\"rss\" text=\"".data _
        (by decide),
      matchAttr_skip_value "xmlUrl=".data f.title _ (by decide)
        (name_hw (by decide)) hT.2,
      matchAttr_skip_chunk "xmlUrl=".data " title=\"".data _ (by decide),
      matchAttr_skip_value "xmlUrl=".data f.title _ (by decide)
        (name_hw (by decide)) hT.2,
      matchAttr_skip_chunk "xmlUrl=".data " ".data _ (by decide)]
    have hx : ("xmlUrl=".data : List Char) = 'x' :: "mlUrl=".data := rfl
    rw [hx]
    exact matchAttr_hit 'x' "mlUrl=".data f.url _ hU.1 (strSafe_quotes hU.2)
  · rw [hsh2,
      matchAttr_skip_chunk "title=".data "<outline type=\"rss\" text=\"".data _
        (by decide),
      matchAttr_skip_value "title=".data f.title _ (by decide)
        (name_hw (by decide)) hT.2,
      matchAttr_skip_chunk "title=".data " ".data _ (by decide)]
    have hx : ("title=".data : List Char) = 't' :: "itle=".data := rfl
    rw [hx]
    exact matchAttr_hit 't' "itle=".data f.title _ hT.1 (strSafe_quotes hT.2)

theorem truthy_some {l : List Char} (h : l ≠ []) : truthy (some l) = some l := by
  simp [truthy, List.isEmpty_iff, h]

theorem jsOrOpt_some {l : List Char} (h : l ≠ []) (b : Option (List Char)) :
    jsOrOpt (some l) b = some l := by
  simp [jsOrOpt, truthy_some h]

theorem eqCI_refl_list (l : List Char) : eqCI l l = true := by
  induction l with
  | nil => rfl
  | cons c t ih => simp [eqCI, ciEq_refl, ih]

theorem syncItems_nextId_mono (feedId now : Nat) (items : List ParsedItem)
    (s : Store) : s.nextId ≤ (syncItems feedId now items s).1.nextId := by
  induction items generalizing s with
  | nil => exact le_rfl
  | cons it rest ih =>
    simp only [syncItems]
    cases getArticleByGuid s feedId (deriveGuid it) with
    | some a => exact ih s
    | none =>
      rcases hsi : syncItems feedId now rest
          ((createArticle s (articleOfItem feedId now it)).1) with ⟨s3, n⟩
      have h2 := ih ((createArticle s (articleOfItem feedId now it)).1)
      rw [hsi] at h2
      have h3 : s.nextId ≤
          ((createArticle s (articleOfItem feedId now it)).1).nextId := by
        simp [createArticle]
      exact le_trans h3 h2

theorem runImport_nil (parse : List Char → Option ParsedFeed)
    (favicon : List Char → Option (List Char)) (now : Nat) (s : Store)
    (imp skp : Nat) (errs : List (List Char)) :
    runImport parse favicon now [] s imp skp errs = (s, imp, skp, errs) := rfl

theorem runImport_skip (parse : List Char → Option ParsedFeed)
    (favicon : List Char → Option (List Char)) (now : Nat) (fr : FeedRef)
    (rest : List FeedRef) (s : Store) (imp skp : Nat)
    (errs : List (List Char)) (f : Feed)
    (hg : getFeedByUrl s fr.url = some f) :
    runImport parse favicon now (fr :: rest) s imp skp errs =
      runImport parse favicon now rest s imp (skp + 1) errs := by
  simp only [runImport, hg]

theorem runImport_step_new_cat (parse : List Char → Option ParsedFeed)
    (favicon : List Char → Option (List Char)) (now : Nat)
    (u ti nm : List Char) (rest : List FeedRef) (s : Store)
    (imp skp : Nat) (errs : List (List Char)) (pf : ParsedFeed)
    (hg : getFeedByUrl s u = none) (hp : parse u = some pf) (hti : ti ≠ [])
    (hfind : s.categories.find? (fun c => eqCI c.name nm) = none) :
    runImport parse favicon now
        ({ url := u, title := some ti, category := some nm } :: rest) s
        imp skp errs =
      runImport parse favicon now rest
        (updateFeed
          (syncItems (s.nextId + 1) now (pf.items.take 20)
            { feeds :=
                s.feeds ++ [importedFeed favicon u ti pf s.nextId (s.nextId + 1)],
              articles := s.articles,
              categories := s.categories ++ [{ id := s.nextId, name := nm }],
              nextId := s.nextId + 1 + 1 }).1
          (s.nextId + 1) { lastFetched := some now })
        (imp + 1) skp errs := by
  simp only [runImport, hg, hp, hfind, createCategory, createFeed, importedFeed,
    jsOrOpt_some hti, Option.getD_some]

theorem runImport_step_found_cat (parse : List Char → Option ParsedFeed)
    (favicon : List Char → Option (List Char)) (now : Nat)
    (u ti nm : List Char) (rest : List FeedRef) (s : Store)
    (imp skp : Nat) (errs : List (List Char)) (pf : ParsedFeed) (c : Category)
    (hg : getFeedByUrl s u = none) (hp : parse u = some pf) (hti : ti ≠ [])
    (hfind : s.categories.find? (fun cc => eqCI cc.name nm) = some c) :
    runImport parse favicon now
        ({ url := u, title := some ti, category := some nm } :: rest) s
        imp skp errs =
      runImport parse favicon now rest
        (updateFeed
          (syncItems s.nextId now (pf.items.take 20)
            { feeds := s.feeds ++ [importedFeed favicon u ti pf c.id s.nextId],
              articles := s.articles,
              categories := s.categories,
              nextId := s.nextId + 1 }).1
          s.nextId { lastFetched := some now })
        (imp + 1) skp errs := by
  simp only [runImport, hg, hp, hfind, createFeed, importedFeed,
    jsOrOpt_some hti, Option.getD_some]

theorem runImport_two_fresh
    (parse : List Char → Option ParsedFeed)
    (favicon : List Char → Option (List Char)) (now n : Nat)
    (u1 u2 t1 t2 nm : List Char) (pf1 pf2 : ParsedFeed)
    (hne : u1 ≠ u2) (ht1 : t1 ≠ []) (ht2 : t2 ≠ [])
    (hp1 : parse u1 = some pf1) (hp2 : parse u2 = some pf2) :
    ∃ st : Store,
      runImport parse favicon now
          [{ url := u1, title := some t1, category := some nm },
           { url := u2, title := some t2, category := some nm }]
          { feeds := [], articles := [], categories := [], nextId := n }
          0 0 [] =
        (st, 2, 0, []) ∧
      st.feeds.map Feed.url = [u1, u2] ∧
      st.feeds.map Feed.title = [t1, t2] ∧
      st.categories = [{ id := n, name := nm }] ∧
      st.feeds.map Feed.categoryId = [some n, some n] ∧
      runImport parse favicon now
          [{ url := u1, title := some t1, category := some nm },
           { url := u2, title := some t2, category := some nm }]
          st 0 0 [] =
        (st, 0, 2, []) := by
  have e1 := runImport_step_new_cat parse favicon now u1 t1 nm
      [{ url := u2, title := some t2, category := some nm }]
      { feeds := [], articles := [], categories := [], nextId := n } 0 0 [] pf1
      rfl hp1 ht1 rfl
  simp only [List.nil_append] at e1
  rcases hsy1 : syncItems (n + 1) now (pf1.items.take 20)
      { feeds := [importedFeed favicon u1 t1 pf1 n (n + 1)], articles := [],
        categories := [{ id := n, name := nm }], nextId := n + 1 + 1 }
    with ⟨sA, m1⟩
  rw [hsy1] at e1
  simp only [] at e1
  obtain ⟨S5, hS5⟩ : ∃ x : Store,
      updateFeed sA (n + 1) { lastFetched := some now } = x := ⟨_, rfl⟩
  rw [hS5] at e1
  have hfcA : sA.feeds = [importedFeed favicon u1 t1 pf1 n (n + 1)] ∧
      sA.categories = [{ id := n, name := nm }] := by
    have h := syncItems_feeds_categories (n + 1) now (pf1.items.take 20)
      { feeds := [importedFeed favicon u1 t1 pf1 n (n + 1)], articles := [],
        categories := [{ id := n, name := nm }], nextId := n + 1 + 1 }
    rw [hsy1] at h
    exact h
  have hmonoA : n + 1 + 1 ≤ sA.nextId := by
    have h := syncItems_nextId_mono (n + 1) now (pf1.items.take 20)
      { feeds := [importedFeed favicon u1 t1 pf1 n (n + 1)], articles := [],
        categories := [{ id := n, name := nm }], nextId := n + 1 + 1 }
    rw [hsy1] at h
    exact h
  have hS5feeds : S5.feeds =
      [{ importedFeed favicon u1 t1 pf1 n (n + 1) with
          lastFetched := some now }] := by
    rw [← hS5]
    show sA.feeds.map _ = _
    rw [hfcA.1]
    simp [importedFeed, applyPatch]
  have hS5cats : S5.categories = [{ id := n, name := nm }] := by
    rw [← hS5]
    show sA.categories = _
    exact hfcA.2
  have hS5next : n + 1 + 1 ≤ S5.nextId := by
    rw [← hS5]
    exact hmonoA
  have hg2 : getFeedByUrl S5 u2 = none := by
    simp [getFeedByUrl, hS5feeds, importedFeed, List.find?, hne]
  have hfind2 : S5.categories.find? (fun cc => eqCI cc.name nm) =
      some { id := n, name := nm } := by
    simp [hS5cats, List.find?, eqCI_refl_list]
  have e2 := runImport_step_found_cat parse favicon now u2 t2 nm [] S5 1 0 []
      pf2 { id := n, name := nm } hg2 hp2 ht2 hfind2
  simp only [] at e2
  rcases hsy2 : syncItems S5.nextId now (pf2.items.take 20)
      { feeds := S5.feeds ++ [importedFeed favicon u2 t2 pf2 n S5.nextId],
        articles := S5.articles, categories := S5.categories,
        nextId := S5.nextId + 1 }
    with ⟨sB, m2⟩
  rw [hsy2] at e2
  simp only [] at e2
  obtain ⟨S9, hS9⟩ : ∃ x : Store,
      updateFeed sB S5.nextId { lastFetched := some now } = x := ⟨_, rfl⟩
  rw [hS9, runImport_nil] at e2
  have hfcB : sB.feeds =
      S5.feeds ++ [importedFeed favicon u2 t2 pf2 n S5.nextId] ∧
      sB.categories = S5.categories := by
    have h := syncItems_feeds_categories S5.nextId now (pf2.items.take 20)
      { feeds := S5.feeds ++ [importedFeed favicon u2 t2 pf2 n S5.nextId],
        articles := S5.articles, categories := S5.categories,
        nextId := S5.nextId + 1 }
    rw [hsy2] at h
    exact h
  have hne1 : ((n + 1 : Nat) == S5.nextId) = false := by
    rw [beq_eq_false_iff_ne]
    omega
  have hS9feeds : S9.feeds =
      [{ importedFeed favicon u1 t1 pf1 n (n + 1) with
          lastFetched := some now },
       { importedFeed favicon u2 t2 pf2 n S5.nextId with
          lastFetched := some now }] := by
    rw [← hS9]
    show sB.feeds.map _ = _
    rw [hfcB.1, hS5feeds]
    simp [importedFeed, applyPatch, hne1]
  have hS9cats : S9.categories = [{ id := n, name := nm }] := by
    rw [← hS9]
    show sB.categories = _
    rw [hfcB.2, hS5cats]
  refine ⟨S9, ?_, ?_, ?_, hS9cats, ?_, ?_⟩
  · rw [e1, e2]
  · rw [hS9feeds]
    simp [importedFeed]
  · rw [hS9feeds]
    simp [importedFeed]
  · rw [hS9feeds]
    simp [importedFeed]
  · have hgA : getFeedByUrl S9 u1 =
        some { importedFeed favicon u1 t1 pf1 n (n + 1) with
          lastFetched := some now } := by
      simp [getFeedByUrl, hS9feeds, importedFeed, List.find?]
    have hgB : getFeedByUrl S9 u2 =
        some { importedFeed favicon u2 t2 pf2 n S5.nextId with
          lastFetched := some now } := by
      simp [getFeedByUrl, hS9feeds, importedFeed, List.find?, hne]
    rw [runImport_skip parse favicon now _ _ _ _ _ _ _ hgA,
      runImport_skip parse favicon now _ _ _ _ _ _ _ hgB, runImport_nil]

/-- C7 (amended): exporting a store holding exactly two feeds, both in
the one stored category, and importing the document into an empty store
reproduces both feeds' URL, title and category name, and importing the
same document again afterwards reports `imported: 0, skipped: 2` --
provided the two titles, the two URLs and the category name are
nonempty and free of XML-special characters and `=` (otherwise
`escapeXml` rewrites them on export and the import never unescapes:
see the counterexample), the export timestamp contains no `<`, the two
URLs differ and both URLs parse. -/
theorem c7_opml_roundtrip
    (s : Store) (f1 f2 : Feed) (cat : Category) (iso : List Char)
    (parse : List Char → Option ParsedFeed)
    (favicon : List Char → Option (List Char)) (now n : Nat)
    (pf1 pf2 : ParsedFeed)
    (hfeeds : getFeeds s = [f1, f2])
    (hcats : getCategories s = [cat])
    (hc1 : f1.categoryId = some cat.id)
    (hc2 : f2.categoryId = some cat.id)
    (hN : strSafe cat.name)
    (hT1 : strSafe f1.title) (hU1 : strSafe f1.url)
    (hT2 : strSafe f2.title) (hU2 : strSafe f2.url)
    (hS1 : ∀ su, truthy f1.siteUrl = some su → ∀ c ∈ su, valSafe c = true)
    (hS2 : ∀ su, truthy f2.siteUrl = some su → ∀ c ∈ su, valSafe c = true)
    (hiso : ∀ c ∈ iso, c ≠ '<')
    (hne : f1.url ≠ f2.url)
    (hp1 : parse f1.url = some pf1)
    (hp2 : parse f2.url = some pf2) :
    (importOpml parse favicon now (exportOpml s iso)
      { feeds := [], articles := [], categories := [],
        nextId := n }).2.imported = 2 ∧
    (importOpml parse favicon now (exportOpml s iso)
      { feeds := [], articles := [], categories := [],
        nextId := n }).2.skipped = 0 ∧
    (importOpml parse favicon now (exportOpml s iso)
      { feeds := [], articles := [], categories := [],
        nextId := n }).2.errors = [] ∧
    (importOpml parse favicon now (exportOpml s iso)
      { feeds := [], articles := [], categories := [],
        nextId := n }).1.feeds.map Feed.url = [f1.url, f2.url] ∧
    (importOpml parse favicon now (exportOpml s iso)
      { feeds := [], articles := [], categories := [],
        nextId := n }).1.feeds.map Feed.title = [f1.title, f2.title] ∧
    (∃ cid : Nat,
      (importOpml parse favicon now (exportOpml s iso)
        { feeds := [], articles := [], categories := [],
          nextId := n }).1.categories = [{ id := cid, name := cat.name }] ∧
      (importOpml parse favicon now (exportOpml s iso)
        { feeds := [], articles := [], categories := [],
          nextId := n }).1.feeds.map Feed.categoryId =
        [some cid, some cid]) ∧
    (importOpml parse favicon now (exportOpml s iso)
      (importOpml parse favicon now (exportOpml s iso)
        { feeds := [], articles := [], categories := [],
          nextId := n }).1).2.imported = 0 ∧
    (importOpml parse favicon now (exportOpml s iso)
      (importOpml parse favicon now (exportOpml s iso)
        { feeds := [], articles := [], categories := [],
          nextId := n }).1).2.skipped = 2 := by
  have hby1 : feedsByCategory [f1, f2] (some cat.id) = [f1, f2] := by
    simp [feedsByCategory, List.filter, hc1, hc2]
  have hby2 : feedsByCategory [f1, f2] (none : Option Nat) = [] := by
    simp [feedsByCategory, List.filter, hc1, hc2]
  have hdoc : exportOpml s iso =
      opmlHeader iso ++ (categoryOutline cat [f1, f2] ++ opmlFooter) := by
    simp only [exportOpml, hfeeds, hcats, List.foldl, hby1, hby2]
    simp [List.append_assoc]
  have hA : opmlHeader iso =
      "<?xml version=\"1.0\" encoding=\"UTF-8\"?>\n<opml version=\"2.0\">\n  <head>\n    <title>ModernFeed RSS Subscriptions</title>\n    <dateCreated>".data ++
      (iso ++ "</dateCreated>\n  </head>\n  <body>".data) := by
    simp [opmlHeader, List.append_assoc]
  have hEq : exportOpml s iso =
      "<?xml version=\"1.0\" encoding=\"UTF-8\"?>\n<opml version=\"2.0\">\n  <head>\n    <title>ModernFeed RSS Subscriptions</title>\n    <dateCreated>".data ++
      (iso ++ ("</dateCreated>\n  </head>\n  <body>".data ++
        ("\n    ".data ++
          ((catTagBody cat.name ++ ['>']) ++ ("\n      ".data ++
            ((feedTagBody f1 ++ ['>']) ++ ("\n      ".data ++
              ((feedTagBody f2 ++ ['>']) ++
                ("\n    </outline>".data ++ opmlFooter))))))))) := by
    rw [hdoc, categoryOutline_eq cat [f1, f2] hN.2]
    simp only [List.foldl_cons, List.foldl_nil]
    rw [feedOutline_eq "\n      ".data f1 hT1.2 hU1.2 hS1,
      feedOutline_eq "\n      ".data f2 hT2.2 hU2.2 hS2, hA]
    simp [List.append_assoc]
  have hTT : outlineTags ("\n    </outline>".data ++ opmlFooter) = [] := by
    decide
  have hofull : outlineTags (exportOpml s iso) =
      [catTagBody cat.name ++ ['>'], feedTagBody f1 ++ ['>'],
       feedTagBody f2 ++ ['>']] := by
    rw [hEq,
      outlineTags_skip_chunk
        "<?xml version=\"1.0\" encoding=\"UTF-8\"?>\n<opml version=\"2.0\">\n  <head>\n    <title>ModernFeed RSS Subscriptions</title>\n    <dateCreated>".data
        _ (by decide),
      outlineTags_skip_safe iso _ hiso,
      outlineTags_skip_chunk "</dateCreated>\n  </head>\n  <body>".data _
        (by decide),
      outlineTags_skip_chunk "\n    ".data _ (by decide),
      outlineTags_match _ _ (catTagBody_startsLit cat.name)
        (catTagBody_no_gt cat.name hN.2),
      outlineTags_skip_chunk "\n      ".data _ (by decide),
      outlineTags_match _ _ (feedTagBody_startsLit f1)
        (feedTagBody_no_gt f1 hT1.2 hU1.2 hS1),
      outlineTags_skip_chunk "\n      ".data _ (by decide),
      outlineTags_match _ _ (feedTagBody_startsLit f2)
        (feedTagBody_no_gt f2 hT2.2 hU2.2 hS2), hTT]
  have hrefs : collectFeedRefs (outlineTags (exportOpml s iso)) none =
      [{ url := f1.url, title := some f1.title, category := some cat.name },
       { url := f2.url, title := some f2.title,
         category := some cat.name }] := by
    rw [hofull]
    have hcA := catTag_attrs cat.name hN
    have hF1 := feedTag_attrs f1 hT1 hU1
    have hF2 := feedTag_attrs f2 hT2 hU2
    simp only [collectFeedRefs, hcA.1, hcA.2.1, hcA.2.2, hF1.1, hF1.2,
      hF2.1, hF2.2, jsOrOpt_some hT1.1, jsOrOpt_some hT2.1]
  obtain ⟨st, hrun, hurl, htit, hcatSt, hcid, hrun2⟩ :=
    runImport_two_fresh parse favicon now n f1.url f2.url f1.title f2.title
      cat.name pf1 pf2 hne hT1.1 hT2.1 hp1 hp2
  have hout : importOpml parse favicon now (exportOpml s iso)
      { feeds := [], articles := [], categories := [], nextId := n } =
      (st, { imported := 2, skipped := 0, total := 2, errors := [] }) := by
    simp only [importOpml, hrefs, hrun]
    rfl
  have hout2 : importOpml parse favicon now (exportOpml s iso) st =
      (st, { imported := 0, skipped := 2, total := 2, errors := [] }) := by
    simp only [importOpml, hrefs, hrun2]
    rfl
  rw [hout]
  exact ⟨rfl, rfl, rfl, hurl, htit, ⟨n, hcatSt, hcid⟩,
    by rw [hout2], by rw [hout2]⟩

theorem c7_opml_roundtrip_witness :
    c7wOut.2.imported = 2 ∧ c7wOut.2.skipped = 0 ∧ c7wOut.2.errors = [] ∧
    c7wOut.1.feeds.map Feed.url = [c7wF1.url, c7wF2.url] ∧
    c7wOut.1.feeds.map Feed.title = [c7wF1.title, c7wF2.title] ∧
    (∃ cid : Nat,
      c7wOut.1.categories = [{ id := cid, name := c7wCat.name }] ∧
      c7wOut.1.feeds.map Feed.categoryId = [some cid, some cid]) ∧
    (importOpml c7wParse c7wFav 7 c7wDoc c7wOut.1).2.imported = 0 ∧
    (importOpml c7wParse c7wFav 7 c7wDoc c7wOut.1).2.skipped = 2 :=
  c7_opml_roundtrip c7wStore c7wF1 c7wF2 c7wCat c7wIso c7wParse c7wFav 7 0
    emptyParsedFeed emptyParsedFeed (by decide) (by decide) (by decide)
    (by decide) ⟨by decide, by decide⟩ ⟨by decide, by decide⟩
    ⟨by decide, by decide⟩ ⟨by decide, by decide⟩ ⟨by decide, by decide⟩
    (fun su h => nomatch h) (fun su h => nomatch h) (by decide) (by decide)
    rfl rfl

end ChittyRSS

